import Mathlib

/-!
Verification development for a minimal RESP key/value server with
single-leader replication.  The Rust source is shallowly embedded:
byte buffers become `List Nat` (each element a byte value), the incremental
cursor of `std::io::Cursor` becomes suffix passing (a parser receives the
unread bytes and returns the remaining suffix), `bytes::Bytes` payloads
become `List Nat`, Rust `String` payloads become their UTF-8 byte lists
(with explicit validity checks where the source calls `String::from_utf8`),
fallible code returns `Except`/`Option`, and points where the source can
panic (`unwrap`, indexing, `assert!`) are modelled by an explicit panic
outcome.  Machine integers (`u64`/`u128`/`usize`) are modelled by `Nat`;
the source never exercises their wrap-around in the behaviours analysed
here (decimal lines longer than 19 digits would be needed).

The recursive functions `Frame::check` and `Frame::parse` recurse through
array elements; the embedding gives them a fuel parameter to make the
recursion structural, proves that any fuel of at least the buffer length
yields the same result (`checkF_fuel`, `parseF_fuel`) — the recursion
consumes at least one byte per step, so such fuel can never run out — and
exposes the fuel-free wrappers `check` and `parse` together with their
natural unfolding equations, which are what all theorems use.
-/

set_option maxRecDepth 10000

namespace Redis

/-- ASCII literal helper: the UTF-8 bytes of an ASCII string. -/
def strLit (s : String) : List Nat := s.data.map Char.toNat

/-- Model of `frame.rs`: the RESP frame type.  `simple`/`error` carry the bytes of the
Rust `String` payload; `bulk none` is the null bulk. -/
inductive Frame where
  | simple (s : List Nat)
  | error (s : List Nat)
  | integer (i : Int)
  | bulk (b : Option (List Nat))
  | null
  | array (elems : List Frame)
  | file (b : List Nat)

/-- Model of `frame.rs` `enum Error { Incomplete, Other(..) }`; the message string of
`Other` is kept. -/
inductive FrameError where
  | incomplete
  | other (msg : String)
  deriving DecidableEq, Repr

/-- Model of `frame.rs` `get_u8`: pop one byte, `Incomplete` on an empty buffer. -/
def getU8 : List Nat → Except FrameError (Nat × List Nat)
  | [] => .error .incomplete
  | b :: rest => .ok (b, rest)

/-- Model of `frame.rs` `get_line`: scan for the first CRLF pair; return the bytes
before it and the suffix after it, `Incomplete` when no pair is present. -/
def getLine : List Nat → Except FrameError (List Nat × List Nat)
  | [] => .error .incomplete
  | [_] => .error .incomplete
  | b1 :: b2 :: rest =>
    if b1 = 13 ∧ b2 = 10 then .ok ([], rest)
    else (getLine (b2 :: rest)).map (fun p => (b1 :: p.1, p.2))

/-- Model of `frame.rs` `get_decimal` digit loop: fold ASCII digits into a number,
protocol error on any non-digit byte. -/
def decimalLoop : List Nat → Nat → Except FrameError Nat
  | [], acc => .ok acc
  | b :: bs, acc =>
    if 48 ≤ b ∧ b ≤ 57 then decimalLoop bs (acc * 10 + (b - 48))
    else .error (.other "Invalid decimal string")

/-- Model of `frame.rs` `get_decimal`: read a line and decode it as base-10 digits. -/
def getDecimal (input : List Nat) : Except FrameError (Nat × List Nat) :=
  match getLine input with
  | .error e => .error e
  | .ok p =>
    match decimalLoop p.1 0 with
    | .error e => .error e
    | .ok n => .ok (n, p.2)

/-- Model of `frame.rs` `skip`: drop `n` bytes, `Incomplete` when fewer remain. -/
def skip (n : Nat) (input : List Nat) : Except FrameError (List Nat) :=
  if input.length < n then .error .incomplete else .ok (input.drop n)

theorem getLine_split : ∀ {input line rest : List Nat},
    getLine input = .ok (line, rest) → input = line ++ 13 :: 10 :: rest := by
  intro input
  induction input with
  | nil => intro line rest h; simp [getLine] at h
  | cons b1 tail ih =>
    intro line rest h
    match tail with
    | [] => simp [getLine] at h
    | b2 :: rest2 =>
      rw [getLine] at h
      by_cases hb : b1 = 13 ∧ b2 = 10
      · rw [if_pos hb] at h
        cases h
        simp [hb.1, hb.2]
      · rw [if_neg hb] at h
        cases h3 : getLine (b2 :: rest2) with
        | error e => rw [h3] at h; simp [Except.map] at h
        | ok p =>
          rw [h3] at h
          simp only [Except.map, Except.ok.injEq] at h
          have hih := @ih p.1 p.2 (by rw [h3])
          cases h
          simpa using hih

theorem getLine_length {input : List Nat} {q : List Nat × List Nat}
    (h : getLine input = .ok q) : q.2.length + 2 ≤ input.length := by
  have := @getLine_split input q.1 q.2 (by rw [h])
  subst this
  simp only [List.length_append, List.length_cons]
  omega

theorem getDecimal_split {input rest : List Nat} {n : Nat}
    (h : getDecimal input = .ok (n, rest)) :
    ∃ line, input = line ++ 13 :: 10 :: rest ∧ decimalLoop line 0 = .ok n := by
  rw [getDecimal] at h
  split at h
  · cases h
  · next p hline =>
    split at h
    · cases h
    · next m hdec =>
      simp only [Except.ok.injEq, Prod.mk.injEq] at h
      obtain ⟨h1, h2⟩ := h
      subst h1
      subst h2
      exact ⟨p.1, getLine_split (by rw [hline]), hdec⟩

theorem getDecimal_length {input : List Nat} {p : Nat × List Nat}
    (h : getDecimal input = .ok p) : p.2.length + 2 ≤ input.length := by
  obtain ⟨line, hs, -⟩ := @getDecimal_split input p.2 p.1 (by rw [h])
  subst hs
  simp only [List.length_append, List.length_cons]
  omega

theorem skip_length {n : Nat} {input rest : List Nat}
    (h : skip n input = .ok rest) : rest.length ≤ input.length := by
  rw [skip] at h
  split at h
  · cases h
  · cases h; simp

/-- Model of `frame.rs` `Frame::check` ('$' branch): decimal length then skip the
payload, with the trailing CRLF except in file mode. -/
def checkBulk (rest : List Nat) (expectFile : Bool) :
    Except FrameError (List Nat) :=
  match getDecimal rest with
  | .error e => .error e
  | .ok (len, rest1) =>
    if expectFile then skip len rest1 else skip (len + 2) rest1

theorem checkBulk_length {rest r : List Nat} {ef : Bool}
    (h : checkBulk rest ef = .ok r) : r.length < rest.length := by
  rw [checkBulk] at h
  split at h
  · cases h
  · next len rest1 hdec =>
    have hd : rest1.length + 2 ≤ rest.length :=
      getDecimal_length (p := (len, rest1)) hdec
    split at h <;> (have hsl := skip_length h; omega)

mutual

/-- Model of `frame.rs` `Frame::check` with fuel: decide whether a complete frame is
present, consuming it; the result is the unread suffix. -/
def checkF : Nat → List Nat → Bool → Except FrameError (List Nat)
  | _, [], _ => .error .incomplete
  | 0, _ :: _, _ => .error .incomplete
  | fuel + 1, b :: rest, expectFile =>
    if b = 36 then checkBulk rest expectFile
    else if b = 42 then
      match getDecimal rest with
      | .error e => .error e
      | .ok p => checkManyF fuel p.1 p.2 expectFile
    else
      match getLine rest with
      | .error e => .error e
      | .ok q => .ok q.2

/-- Model of `frame.rs` `Frame::check` ('*' branch) with fuel: check `len` sub-frames
in sequence (the source passes `expect_file` down unchanged). -/
def checkManyF : Nat → Nat → List Nat → Bool → Except FrameError (List Nat)
  | _, 0, input, _ => .ok input
  | 0, _ + 1, _, _ => .error .incomplete
  | fuel + 1, len + 1, input, expectFile =>
    match checkF fuel input expectFile with
    | .error e => .error e
    | .ok r => checkManyF fuel len r expectFile

end

theorem check_length_aux : ∀ fuel : Nat,
    (∀ {input r : List Nat} {ef : Bool},
      checkF fuel input ef = .ok r → r.length < input.length) ∧
    (∀ {len : Nat} {input r : List Nat} {ef : Bool},
      checkManyF fuel len input ef = .ok r → r.length ≤ input.length) := by
  intro fuel
  induction fuel with
  | zero =>
    constructor
    · intro input r ef h
      cases input <;> simp [checkF] at h
    · intro len input r ef h
      cases len with
      | zero => rw [checkManyF] at h; cases h; exact Nat.le_refl _
      | succ len => simp [checkManyF] at h
  | succ fuel ih =>
    constructor
    · intro input r ef h
      cases input with
      | nil => simp [checkF] at h
      | cons b rest =>
        rw [checkF] at h
        split at h
        · have := checkBulk_length h
          simp only [List.length_cons]
          omega
        · split at h
          · split at h
            · cases h
            · next p hdec =>
              have hd := getDecimal_length hdec
              have hm := ih.2 h
              simp only [List.length_cons]
              omega
          · split at h
            · cases h
            · next q hline =>
              cases h
              have := getLine_length hline
              simp only [List.length_cons]
              omega
    · intro len input r ef h
      cases len with
      | zero => rw [checkManyF] at h; cases h; exact Nat.le_refl _
      | succ len =>
        rw [checkManyF] at h
        split at h
        · cases h
        · next r1 hf =>
          have h1 := ih.1 hf
          have h2 := ih.2 h
          omega

theorem checkF_length {fuel : Nat} {input r : List Nat} {ef : Bool}
    (h : checkF fuel input ef = .ok r) : r.length < input.length :=
  (check_length_aux fuel).1 h

theorem checkManyF_length {fuel len : Nat} {input r : List Nat} {ef : Bool}
    (h : checkManyF fuel len input ef = .ok r) : r.length ≤ input.length :=
  (check_length_aux fuel).2 h

theorem check_fuel_aux : ∀ fuel : Nat,
    (∀ (fuel2 : Nat) (input : List Nat) (ef : Bool),
      input.length ≤ fuel → input.length ≤ fuel2 →
      checkF fuel input ef = checkF fuel2 input ef) ∧
    (∀ (fuel2 len : Nat) (input : List Nat) (ef : Bool),
      input.length + 1 ≤ fuel → input.length + 1 ≤ fuel2 →
      checkManyF fuel len input ef = checkManyF fuel2 len input ef) := by
  intro fuel
  induction fuel with
  | zero =>
    constructor
    · intro fuel2 input ef h1 h2
      have : input = [] := List.eq_nil_of_length_eq_zero (Nat.le_zero.mp h1)
      subst this
      cases fuel2 <;> simp [checkF]
    · intro fuel2 len input ef h1 h2
      omega
  | succ fuel ih =>
    constructor
    · intro fuel2 input ef h1 h2
      cases input with
      | nil => cases fuel2 <;> simp [checkF]
      | cons b rest =>
        simp only [List.length_cons] at h1 h2
        match fuel2, h2 with
        | fuel2 + 1, _ =>
          rw [checkF, checkF]
          by_cases h36 : b = 36
          · simp only [if_pos h36]
          · simp only [if_neg h36]
            by_cases h42 : b = 42
            · simp only [if_pos h42]
              cases hd : getDecimal rest with
              | error e => rfl
              | ok p =>
                have hdl := getDecimal_length hd
                exact ih.2 fuel2 p.1 p.2 ef (by omega) (by omega)
            · simp only [if_neg h42]
    · intro fuel2 len input ef h1 h2
      cases len with
      | zero =>
        match fuel2, h2 with
        | fuel2 + 1, _ => rw [checkManyF, checkManyF]
      | succ len =>
        match fuel2, h2 with
        | fuel2 + 1, _ =>
          rw [checkManyF, checkManyF]
          have hf := ih.1 fuel2 input ef (by omega) (by omega)
          rw [hf]
          cases hc : checkF fuel2 input ef with
          | error e => rfl
          | ok r =>
            have hr : r.length < input.length := checkF_length hc
            exact ih.2 fuel2 len r ef (by omega) (by omega)

/-- Model of `frame.rs` `Frame::check`, fuel-free: the fuel `input.length` can never
run out because every recursion step consumes at least one byte. -/
def check (input : List Nat) (expectFile : Bool) :
    Except FrameError (List Nat) :=
  checkF input.length input expectFile

/-- The sub-frame loop of `Frame::check`, fuel-free. -/
def checkN (len : Nat) (input : List Nat) (expectFile : Bool) :
    Except FrameError (List Nat) :=
  checkManyF (input.length + 1) len input expectFile

theorem checkF_fuel {fuel : Nat} {input : List Nat} {ef : Bool}
    (h : input.length ≤ fuel) : checkF fuel input ef = check input ef :=
  (check_fuel_aux fuel).1 input.length input ef h (Nat.le_refl _)

theorem checkManyF_fuel {fuel len : Nat} {input : List Nat} {ef : Bool}
    (h : input.length + 1 ≤ fuel) :
    checkManyF fuel len input ef = checkN len input ef :=
  (check_fuel_aux fuel).2 (input.length + 1) len input ef h (Nat.le_refl _)

theorem check_length {input r : List Nat} {ef : Bool}
    (h : check input ef = .ok r) : r.length < input.length :=
  checkF_length h

theorem check_nil (ef : Bool) : check [] ef = .error .incomplete := by
  simp [check, checkF]

theorem check_cons (b : Nat) (rest : List Nat) (ef : Bool) :
    check (b :: rest) ef =
      if b = 36 then checkBulk rest ef
      else if b = 42 then
        match getDecimal rest with
        | .error e => .error e
        | .ok p => checkN p.1 p.2 ef
      else
        match getLine rest with
        | .error e => .error e
        | .ok q => .ok q.2 := by
  rw [check]
  simp only [List.length_cons]
  rw [checkF]
  by_cases h36 : b = 36
  · simp only [if_pos h36]
  · simp only [if_neg h36]
    by_cases h42 : b = 42
    · simp only [if_pos h42]
      cases hd : getDecimal rest with
      | error e => rfl
      | ok p =>
        have hdl := getDecimal_length hd
        exact checkManyF_fuel (by omega)
    · simp only [if_neg h42]

theorem checkN_zero (input : List Nat) (ef : Bool) :
    checkN 0 input ef = .ok input := by
  rw [checkN, checkManyF]

theorem checkN_succ (len : Nat) (input : List Nat) (ef : Bool) :
    checkN (len + 1) input ef =
      match check input ef with
      | .error e => .error e
      | .ok r => checkN len r ef := by
  rw [checkN, checkManyF]
  rw [show checkF (input.length) input ef = check input ef from rfl]
  cases hc : check input ef with
  | error e => rfl
  | ok r =>
    have hr := check_length hc
    exact checkManyF_fuel (by omega)

/-- One UTF-8 sequence step, as validated by Rust's `String::from_utf8`
(RFC 3629: no overlong forms, no surrogates, nothing above U+10FFFF):
given a leading byte and the following bytes, consume the continuation
bytes and return the remainder, or `none` when invalid. -/
def utf8Step (b : Nat) (rest : List Nat) : Option (List Nat) :=
  if b ≤ 127 then some rest
  else if 194 ≤ b ∧ b ≤ 223 then
    match rest with
    | c :: r => if 128 ≤ c ∧ c ≤ 191 then some r else none
    | [] => none
  else if b = 224 then
    match rest with
    | c1 :: c2 :: r =>
      if (160 ≤ c1 ∧ c1 ≤ 191) ∧ (128 ≤ c2 ∧ c2 ≤ 191) then some r else none
    | _ => none
  else if (225 ≤ b ∧ b ≤ 236) ∨ b = 238 ∨ b = 239 then
    match rest with
    | c1 :: c2 :: r =>
      if (128 ≤ c1 ∧ c1 ≤ 191) ∧ (128 ≤ c2 ∧ c2 ≤ 191) then some r else none
    | _ => none
  else if b = 237 then
    match rest with
    | c1 :: c2 :: r =>
      if (128 ≤ c1 ∧ c1 ≤ 159) ∧ (128 ≤ c2 ∧ c2 ≤ 191) then some r else none
    | _ => none
  else if b = 240 then
    match rest with
    | c1 :: c2 :: c3 :: r =>
      if (144 ≤ c1 ∧ c1 ≤ 191) ∧ (128 ≤ c2 ∧ c2 ≤ 191) ∧
          (128 ≤ c3 ∧ c3 ≤ 191) then some r else none
    | _ => none
  else if 241 ≤ b ∧ b ≤ 243 then
    match rest with
    | c1 :: c2 :: c3 :: r =>
      if (128 ≤ c1 ∧ c1 ≤ 191) ∧ (128 ≤ c2 ∧ c2 ≤ 191) ∧
          (128 ≤ c3 ∧ c3 ≤ 191) then some r else none
    | _ => none
  else if b = 244 then
    match rest with
    | c1 :: c2 :: c3 :: r =>
      if (128 ≤ c1 ∧ c1 ≤ 143) ∧ (128 ≤ c2 ∧ c2 ≤ 191) ∧
          (128 ≤ c3 ∧ c3 ≤ 191) then some r else none
    | _ => none
  else none

theorem utf8Step_length {b : Nat} {rest r : List Nat}
    (h : utf8Step b rest = some r) : r.length ≤ rest.length := by
  unfold utf8Step at h
  split at h
  · cases h; exact Nat.le_refl _
  · split at h
    · split at h
      · split at h
        · cases h; simp
        · cases h
      · cases h
    · split at h
      · split at h
        · split at h
          · cases h; simp; omega
          · cases h
        · cases h
      · split at h
        · split at h
          · split at h
            · cases h; simp; omega
            · cases h
          · cases h
        · split at h
          · split at h
            · split at h
              · cases h; simp; omega
              · cases h
            · cases h
          · split at h
            · split at h
              · split at h
                · cases h; simp; omega
                · cases h
              · cases h
            · split at h
              · split at h
                · split at h
                  · cases h; simp; omega
                  · cases h
                · cases h
              · split at h
                · split at h
                  · split at h
                    · cases h; simp; omega
                    · cases h
                  · cases h
                · cases h

/-- UTF-8 validity of a byte sequence, as checked by Rust's
`String::from_utf8`. -/
def isValidUtf8 : List Nat → Bool
  | [] => true
  | b :: rest =>
    if h : (utf8Step b rest).isSome then isValidUtf8 ((utf8Step b rest).get h)
    else false
termination_by l => l.length
decreasing_by
  have := utf8Step_length (Option.some_get h).symm
  simp only [List.length_cons]
  omega

theorem isValidUtf8_nil : isValidUtf8 [] = true := by
  rw [isValidUtf8]

theorem isValidUtf8_cons (b : Nat) (rest : List Nat) :
    isValidUtf8 (b :: rest) =
      match utf8Step b rest with
      | some r => isValidUtf8 r
      | none => false := by
  rw [isValidUtf8]
  cases hs : utf8Step b rest with
  | some r => simp [hs]
  | none => simp [hs]

/-- All bytes ASCII (≤ 127): valid UTF-8. -/
theorem isValidUtf8_ascii : ∀ {l : List Nat},
    (∀ b ∈ l, b ≤ 127) → isValidUtf8 l = true := by
  intro l
  induction l with
  | nil => intro _; exact isValidUtf8_nil
  | cons b rest ih =>
    intro h
    have hb : b ≤ 127 := h b (List.mem_cons_self b rest)
    rw [isValidUtf8_cons]
    rw [show utf8Step b rest = some rest from by unfold utf8Step; simp [hb]]
    exact ih (fun c hc => h c (List.mem_cons_of_mem b hc))

/-- Rust `str::split(' ')` on the byte level: split on byte 32, keeping
empty tokens. -/
def splitSpace : List Nat → List (List Nat)
  | [] => [[]]
  | b :: rest =>
    if b = 32 then [] :: splitSpace rest
    else
      match splitSpace rest with
      | [] => [[b]]
      | h :: t => (b :: h) :: t

mutual

/-- Model of `frame.rs` `Frame::parse` with fuel: decode one frame, returning it and
the unread suffix.  Note the source has no `'-'` or `':'` branch: error and
integer encodings fall into the inline-command branch. -/
def parseF : Nat → List Nat → Bool → Except FrameError (Frame × List Nat)
  | _, [], _ => .error .incomplete
  | 0, _ :: _, _ => .error .incomplete
  | fuel + 1, b :: rest, expectFile =>
    if b = 36 then
      match getDecimal rest with
      | .error e => .error e
      | .ok p =>
        if expectFile then
          if p.2.length < p.1 then .error .incomplete
          else .ok (.file (p.2.take p.1), p.2.drop p.1)
        else
          if p.2.length < p.1 + 2 then .error .incomplete
          else .ok (.bulk (some (p.2.take p.1)), p.2.drop (p.1 + 2))
    else if b = 42 then
      match getDecimal rest with
      | .error e => .error e
      | .ok p =>
        match parseManyF fuel p.1 p.2 with
        | .error e => .error e
        | .ok q => .ok (.array q.1, q.2)
    else if b = 43 then
      match getLine rest with
      | .error e => .error e
      | .ok q =>
        if isValidUtf8 q.1 then .ok (.simple q.1, q.2)
        else .error (.other "protocol error; invalid frame format")
    else
      match getLine rest with
      | .error e => .error e
      | .ok q =>
        if isValidUtf8 [b] ∧ isValidUtf8 q.1 then
          .ok (.array ((splitSpace (b :: q.1)).map (fun part =>
            .bulk (some part))), q.2)
        else .error (.other "protocol error; invalid frame format")

/-- Model of `frame.rs` `Frame::parse` ('*' branch) with fuel: parse `len` sub-frames
(the source always passes `expect_file = false` to the elements). -/
def parseManyF : Nat → Nat → List Nat →
    Except FrameError (List Frame × List Nat)
  | _, 0, input => .ok ([], input)
  | 0, _ + 1, _ => .error .incomplete
  | fuel + 1, len + 1, input =>
    match parseF fuel input false with
    | .error e => .error e
    | .ok q =>
      match parseManyF fuel len q.2 with
      | .error e => .error e
      | .ok q2 => .ok (q.1 :: q2.1, q2.2)

end

theorem parse_length_aux : ∀ fuel : Nat,
    (∀ {input : List Nat} {q : Frame × List Nat} {ef : Bool},
      parseF fuel input ef = .ok q → q.2.length < input.length) ∧
    (∀ {len : Nat} {input : List Nat} {q : List Frame × List Nat},
      parseManyF fuel len input = .ok q → q.2.length ≤ input.length) := by
  intro fuel
  induction fuel with
  | zero =>
    constructor
    · intro input q ef h
      cases input <;> simp [parseF] at h
    · intro len input q h
      cases len with
      | zero => rw [parseManyF] at h; cases h; exact Nat.le_refl _
      | succ len => simp [parseManyF] at h
  | succ fuel ih =>
    constructor
    · intro input q ef h
      cases input with
      | nil => simp [parseF] at h
      | cons b rest =>
        rw [parseF] at h
        split at h
        · split at h
          · cases h
          · next p hdec =>
            have hd := getDecimal_length hdec
            split at h <;>
              (split at h
               · cases h
               · cases h
                 simp only [List.length_cons, List.length_drop]
                 omega)
        · split at h
          · split at h
            · cases h
            · next p hdec =>
              have hd := getDecimal_length hdec
              split at h
              · cases h
              · next q1 hm =>
                have := ih.2 hm
                cases h
                simp only [List.length_cons]
                omega
          · split at h
            · split at h
              · cases h
              · next q1 hline =>
                have := getLine_length hline
                split at h
                · cases h
                  simp only [List.length_cons]
                  omega
                · cases h
            · split at h
              · cases h
              · next q1 hline =>
                have := getLine_length hline
                split at h
                · cases h
                  simp only [List.length_cons]
                  omega
                · cases h
    · intro len input q h
      cases len with
      | zero => rw [parseManyF] at h; cases h; exact Nat.le_refl _
      | succ len =>
        rw [parseManyF] at h
        split at h
        · cases h
        · next q1 hf =>
          have h1 := ih.1 hf
          split at h
          · cases h
          · next q2 hm =>
            have h2 := ih.2 hm
            cases h
            show q2.2.length ≤ input.length
            omega

theorem parseF_length {fuel : Nat} {input : List Nat} {q : Frame × List Nat}
    {ef : Bool} (h : parseF fuel input ef = .ok q) :
    q.2.length < input.length :=
  (parse_length_aux fuel).1 h

theorem parseManyF_length {fuel len : Nat} {input : List Nat}
    {q : List Frame × List Nat} (h : parseManyF fuel len input = .ok q) :
    q.2.length ≤ input.length :=
  (parse_length_aux fuel).2 h

theorem parse_fuel_aux : ∀ fuel : Nat,
    (∀ (fuel2 : Nat) (input : List Nat) (ef : Bool),
      input.length ≤ fuel → input.length ≤ fuel2 →
      parseF fuel input ef = parseF fuel2 input ef) ∧
    (∀ (fuel2 len : Nat) (input : List Nat),
      input.length + 1 ≤ fuel → input.length + 1 ≤ fuel2 →
      parseManyF fuel len input = parseManyF fuel2 len input) := by
  intro fuel
  induction fuel with
  | zero =>
    constructor
    · intro fuel2 input ef h1 h2
      have : input = [] := List.eq_nil_of_length_eq_zero (Nat.le_zero.mp h1)
      subst this
      cases fuel2 <;> simp [parseF]
    · intro fuel2 len input h1 h2
      omega
  | succ fuel ih =>
    constructor
    · intro fuel2 input ef h1 h2
      cases input with
      | nil => cases fuel2 <;> simp [parseF]
      | cons b rest =>
        simp only [List.length_cons] at h1 h2
        match fuel2, h2 with
        | fuel2 + 1, _ =>
          rw [parseF, parseF]
          by_cases h36 : b = 36
          · simp only [if_pos h36]
          · simp only [if_neg h36]
            by_cases h42 : b = 42
            · simp only [if_pos h42]
              cases hd : getDecimal rest with
              | error e => rfl
              | ok p =>
                have hdl := getDecimal_length hd
                have key : parseManyF fuel p.1 p.2 = parseManyF fuel2 p.1 p.2 :=
                  ih.2 fuel2 p.1 p.2 (by omega) (by omega)
                show (match parseManyF fuel p.1 p.2 with
                  | Except.error e => Except.error e
                  | Except.ok q => Except.ok (Frame.array q.1, q.2)) =
                  (match parseManyF fuel2 p.1 p.2 with
                  | Except.error e => Except.error e
                  | Except.ok q => Except.ok (Frame.array q.1, q.2))
                rw [key]
            · simp only [if_neg h42]
    · intro fuel2 len input h1 h2
      cases len with
      | zero =>
        match fuel2, h2 with
        | fuel2 + 1, _ => rw [parseManyF, parseManyF]
      | succ len =>
        match fuel2, h2 with
        | fuel2 + 1, _ =>
          rw [parseManyF, parseManyF]
          have hf := ih.1 fuel2 input false (by omega) (by omega)
          rw [hf]
          cases hc : parseF fuel2 input false with
          | error e => rfl
          | ok q =>
            have hr : q.2.length < input.length := parseF_length hc
            have key : parseManyF fuel len q.2 = parseManyF fuel2 len q.2 :=
              ih.2 fuel2 len q.2 (by omega) (by omega)
            show (match parseManyF fuel len q.2 with
              | Except.error e => Except.error e
              | Except.ok q2 => Except.ok (q.1 :: q2.1, q2.2)) =
              (match parseManyF fuel2 len q.2 with
              | Except.error e => Except.error e
              | Except.ok q2 => Except.ok (q.1 :: q2.1, q2.2))
            rw [key]

/-- Model of `frame.rs` `Frame::parse`, fuel-free. -/
def parse (input : List Nat) (expectFile : Bool) :
    Except FrameError (Frame × List Nat) :=
  parseF input.length input expectFile

/-- The sub-frame loop of `Frame::parse`, fuel-free. -/
def parseN (len : Nat) (input : List Nat) :
    Except FrameError (List Frame × List Nat) :=
  parseManyF (input.length + 1) len input

theorem parseF_fuel {fuel : Nat} {input : List Nat} {ef : Bool}
    (h : input.length ≤ fuel) : parseF fuel input ef = parse input ef :=
  (parse_fuel_aux fuel).1 input.length input ef h (Nat.le_refl _)

theorem parseManyF_fuel {fuel len : Nat} {input : List Nat}
    (h : input.length + 1 ≤ fuel) :
    parseManyF fuel len input = parseN len input :=
  (parse_fuel_aux fuel).2 (input.length + 1) len input h (Nat.le_refl _)

theorem parse_length {input : List Nat} {q : Frame × List Nat} {ef : Bool}
    (h : parse input ef = .ok q) : q.2.length < input.length :=
  parseF_length h

theorem parse_nil (ef : Bool) : parse [] ef = .error .incomplete := by
  simp [parse, parseF]

theorem parse_cons (b : Nat) (rest : List Nat) (ef : Bool) :
    parse (b :: rest) ef =
      (if b = 36 then
        match getDecimal rest with
        | .error e => .error e
        | .ok p =>
          if ef then
            if p.2.length < p.1 then .error .incomplete
            else .ok (.file (p.2.take p.1), p.2.drop p.1)
          else
            if p.2.length < p.1 + 2 then .error .incomplete
            else .ok (.bulk (some (p.2.take p.1)), p.2.drop (p.1 + 2))
      else if b = 42 then
        match getDecimal rest with
        | .error e => .error e
        | .ok p =>
          match parseN p.1 p.2 with
          | .error e => .error e
          | .ok q => .ok (.array q.1, q.2)
      else if b = 43 then
        match getLine rest with
        | .error e => .error e
        | .ok q =>
          if isValidUtf8 q.1 then .ok (.simple q.1, q.2)
          else .error (.other "protocol error; invalid frame format")
      else
        match getLine rest with
        | .error e => .error e
        | .ok q =>
          if isValidUtf8 [b] ∧ isValidUtf8 q.1 then
            .ok (.array ((splitSpace (b :: q.1)).map (fun part =>
              .bulk (some part))), q.2)
          else .error (.other "protocol error; invalid frame format")) := by
  rw [parse]
  simp only [List.length_cons]
  rw [parseF]
  by_cases h36 : b = 36
  · simp only [if_pos h36]
  · simp only [if_neg h36]
    by_cases h42 : b = 42
    · simp only [if_pos h42]
      cases hd : getDecimal rest with
      | error e => rfl
      | ok p =>
        have hdl := getDecimal_length hd
        have key : parseManyF rest.length p.1 p.2 = parseN p.1 p.2 :=
          parseManyF_fuel (by omega)
        show (match parseManyF rest.length p.1 p.2 with
          | Except.error e => Except.error e
          | Except.ok q => Except.ok (Frame.array q.1, q.2)) =
          (match parseN p.1 p.2 with
          | Except.error e => Except.error e
          | Except.ok q => Except.ok (Frame.array q.1, q.2))
        rw [key]
    · simp only [if_neg h42]

theorem parseN_zero (input : List Nat) : parseN 0 input = .ok ([], input) := by
  rw [parseN, parseManyF]

theorem parseN_succ (len : Nat) (input : List Nat) :
    parseN (len + 1) input =
      match parse input false with
      | .error e => .error e
      | .ok q =>
        match parseN len q.2 with
        | .error e => .error e
        | .ok q2 => .ok (q.1 :: q2.1, q2.2) := by
  rw [parseN, parseManyF]
  rw [show parseF (input.length) input false = parse input false from rfl]
  cases hc : parse input false with
  | error e => rfl
  | ok q =>
    have hr := parse_length hc
    have key : parseManyF input.length len q.2 = parseN len q.2 :=
      parseManyF_fuel (by omega)
    show (match parseManyF input.length len q.2 with
      | Except.error e => Except.error e
      | Except.ok q2 => Except.ok (q.1 :: q2.1, q2.2)) =
      (match parseN len q.2 with
      | Except.error e => Except.error e
      | Except.ok q2 => Except.ok (q.1 :: q2.1, q2.2))
    rw [key]

/-- Model of `connection.rs` `ReadConnection::parse_frame`: run `check` on the
buffer; on success parse from the start and advance the buffer by the
length `check` consumed; on `Incomplete` return `None` with the buffer
unchanged; other errors propagate. -/
def parse_frame (buffer : List Nat) (expectFile : Bool) :
    Except FrameError (Option Frame × List Nat) :=
  match check buffer expectFile with
  | .ok rest =>
    match parse buffer expectFile with
    | .ok q => .ok (some q.1, rest)
    | .error e => .error e
  | .error .incomplete => .ok (none, buffer)
  | .error (.other m) => .error (.other m)


/-- Rust `{}` formatting of an unsigned integer, accumulator form:
most-significant-first ASCII decimal digits. -/
def natToBytesAux : Nat → List Nat → List Nat
  | n, acc =>
    if n < 10 then (n + 48) :: acc
    else natToBytesAux (n / 10) ((n % 10 + 48) :: acc)
termination_by n _ => n
decreasing_by exact Nat.div_lt_self (by omega) (by omega)

/-- Rust `{}` formatting of an unsigned integer. -/
def natToBytes (n : Nat) : List Nat := natToBytesAux n []

/-- Reference fold mirroring `decimalLoop` over the digits of `n`. -/
def pushDigits : Nat → Nat → Nat
  | v, n =>
    if n < 10 then v * 10 + n
    else pushDigits v (n / 10) * 10 + n % 10
termination_by _ n => n
decreasing_by exact Nat.div_lt_self (by omega) (by omega)

theorem pushDigits_zero : ∀ n, pushDigits 0 n = n := by
  intro n
  induction n using Nat.strong_induction_on with
  | _ n ih =>
    rw [pushDigits]
    by_cases h : n < 10
    · simp [h]
    · rw [if_neg h, ih (n / 10) (Nat.div_lt_self (by omega) (by omega))]
      omega

theorem decimalLoop_natToBytesAux : ∀ n acc v,
    decimalLoop (natToBytesAux n acc) v = decimalLoop acc (pushDigits v n) := by
  intro n
  induction n using Nat.strong_induction_on with
  | _ n ih =>
    intro acc v
    rw [natToBytesAux, pushDigits]
    by_cases h : n < 10
    · rw [if_pos h, if_pos h, decimalLoop]
      rw [if_pos (by omega)]
      simp only [Nat.add_sub_cancel]
    · rw [if_neg h, if_neg h,
        ih (n / 10) (Nat.div_lt_self (by omega) (by omega))]
      rw [decimalLoop]
      rw [if_pos (by omega)]
      simp only [Nat.add_sub_cancel]

theorem decimalLoop_natToBytes (n : Nat) :
    decimalLoop (natToBytes n) 0 = .ok n := by
  rw [natToBytes, decimalLoop_natToBytesAux, decimalLoop, pushDigits_zero]

theorem natToBytesAux_digits : ∀ n acc,
    (∀ b ∈ acc, 48 ≤ b ∧ b ≤ 57) →
    ∀ b ∈ natToBytesAux n acc, 48 ≤ b ∧ b ≤ 57 := by
  intro n
  induction n using Nat.strong_induction_on with
  | _ n ih =>
    intro acc hacc b hb
    rw [natToBytesAux] at hb
    by_cases h : n < 10
    · rw [if_pos h] at hb
      cases hb with
      | head => omega
      | tail _ hb => exact hacc b hb
    · rw [if_neg h] at hb
      refine ih (n / 10) (Nat.div_lt_self (by omega) (by omega)) _ ?_ b hb
      intro c hc
      cases hc with
      | head => have := Nat.mod_lt n (show 0 < 10 from by omega); omega
      | tail _ hc => exact hacc c hc

theorem natToBytes_digits (n : Nat) :
    ∀ b ∈ natToBytes n, 48 ≤ b ∧ b ≤ 57 := by
  exact natToBytesAux_digits n [] (by intro b hb; cases hb)

/-- Whether the byte sequence contains the CRLF pair. -/
def hasCRLF : List Nat → Bool
  | [] => false
  | [_] => false
  | b1 :: b2 :: t => (decide (b1 = 13) && decide (b2 = 10)) || hasCRLF (b2 :: t)

theorem hasCRLF_of_digits {l : List Nat}
    (h : ∀ b ∈ l, 48 ≤ b ∧ b ≤ 57) : hasCRLF l = false := by
  induction l with
  | nil => rfl
  | cons b1 t ih =>
    match t with
    | [] => rfl
    | b2 :: t2 =>
      rw [hasCRLF]
      have h1 := h b1 (by simp)
      have ht : ∀ b ∈ b2 :: t2, 48 ≤ b ∧ b ≤ 57 := by
        intro c hc
        exact h c (List.mem_cons_of_mem b1 hc)
      rw [ih ht]
      have : ¬ b1 = 13 := by omega
      simp [this]

theorem getLine_encode : ∀ (line rest : List Nat), hasCRLF line = false →
    getLine (line ++ 13 :: 10 :: rest) = .ok (line, rest) := by
  intro line
  induction line with
  | nil =>
    intro rest _
    rw [List.nil_append, getLine]
    simp
  | cons a tail ih =>
    intro rest hcr
    match tail with
    | [] =>
      rw [List.cons_append, List.nil_append, getLine]
      have : ¬(a = 13 ∧ 13 = 10) := by omega
      rw [if_neg this]
      rw [show getLine (13 :: 10 :: rest) = .ok ([], rest) from by
        simp [getLine]]
      rfl
    | c :: tail2 =>
      simp only [List.cons_append]
      rw [getLine]
      have hc : ¬(a = 13 ∧ (c :: tail2 ++ 13 :: 10 :: rest).head? = some 10) := by
        intro ⟨ha, hh⟩
        simp at hh
        rw [hasCRLF] at hcr
        simp [ha, hh] at hcr
      have hcond : ¬(a = 13 ∧ c = 10) := by
        intro ⟨ha, hcc⟩
        exact hc ⟨ha, by simp [hcc]⟩
      rw [if_neg hcond]
      have htl : hasCRLF (c :: tail2) = false := by
        rw [hasCRLF] at hcr
        cases hor : hasCRLF (c :: tail2) with
        | false => rfl
        | true => rw [hor] at hcr; simp at hcr
      have hih := ih rest htl
      simp only [List.cons_append] at hih
      rw [hih]
      rfl

theorem getDecimal_encode (n : Nat) (rest : List Nat) :
    getDecimal (natToBytes n ++ 13 :: 10 :: rest) = .ok (n, rest) := by
  rw [getDecimal]
  rw [getLine_encode _ _ (hasCRLF_of_digits (natToBytes_digits n))]
  show (match decimalLoop (natToBytes n) 0 with
    | Except.error e => Except.error e
    | Except.ok m => Except.ok (m, rest)) = Except.ok (n, rest)
  rw [decimalLoop_natToBytes n]

/-- Model of `connection.rs` `WriteConnection::write_decimal`: the decimal digits
followed by CRLF; fails with an I/O error when the value has more than 12
digits, since the source formats into a fixed 12-byte buffer. -/
def writeDecimal (n : Nat) : Option (List Nat) :=
  if (natToBytes n).length ≤ 12 then some (natToBytes n ++ [13, 10]) else none

/-- Model of `connection.rs` `WriteConnection::write_value`; `integer` and `null`
(and nested arrays) fall into the catch-all arm that writes nothing. -/
def writeValue : Frame → Option (List Nat)
  | .bulk (some content) =>
    (writeDecimal content.length).map (fun d => 36 :: (d ++ content ++ [13, 10]))
  | .bulk none => some [36, 45, 49, 13, 10]
  | .simple s => some (43 :: (s ++ [13, 10]))
  | .error s => some (45 :: (s ++ [13, 10]))
  | .file contents =>
    (writeDecimal contents.length).map (fun d => 36 :: (d ++ contents))
  | _ => some []

/-- The loop of `WriteConnection::write_frame` over array elements:
concatenated `write_value` output. -/
def writeValues : List Frame → Option (List Nat)
  | [] => some []
  | v :: vs => (writeValue v).bind (fun b => (writeValues vs).map (fun bs => b ++ bs))

/-- Model of `connection.rs` `WriteConnection::write_frame`: arrays write `'*'`, the
element count, then each element via `write_value`; every other frame goes
through `write_value` directly. -/
def write_frame : Frame → Option (List Nat)
  | .array vs =>
    (writeDecimal vs.length).bind (fun d =>
      (writeValues vs).map (fun body => 42 :: (d ++ body)))
  | f => writeValue f

/-- Frames whose `write_value` output parses back (with
`expect_file = false`) to the same frame: bulk strings with a payload, and
simple strings whose payload has no CRLF (always true of the source's
`String` payloads at the wire level when they encode one line) and is
valid UTF-8 (always true of Rust `String`s). -/
def goodElem : Frame → Bool
  | .bulk (some _) => true
  | .simple s => !hasCRLF s && isValidUtf8 s
  | _ => false

/-- Frames whose `write_frame` output parses back to the same frame:
a good element, or an array of good elements. -/
def goodFrame : Frame → Bool
  | .array vs => vs.all goodElem
  | f => goodElem f

theorem writeValue_parse : ∀ (v : Frame) (bs rest : List Nat),
    goodElem v = true → writeValue v = some bs →
    parse (bs ++ rest) false = .ok (v, rest) := by
  intro v bs rest hgood hw
  match v with
  | .bulk (some content) =>
    rw [writeValue] at hw
    cases hd : writeDecimal content.length with
    | none => rw [hd] at hw; cases hw
    | some d =>
      rw [hd] at hw
      simp only [Option.map, Option.some.injEq] at hw
      rw [writeDecimal] at hd
      split at hd
      · cases hd
        subst hw
        rw [show (36 :: (natToBytes content.length ++ [13, 10] ++ content ++ [13, 10])) ++ rest =
          36 :: (natToBytes content.length ++ 13 :: 10 :: (content ++ 13 :: 10 :: rest)) from by simp]
        rw [parse_cons, if_pos rfl]
        have hlen : ¬((content ++ 13 :: 10 :: rest).length < content.length + 2) := by
          simp only [List.length_append, List.length_cons]
          omega
        have htake : (content ++ 13 :: 10 :: rest).take content.length = content := by
          rw [List.take_append_of_le_length (Nat.le_refl _), List.take_length]
        have hdrop : (content ++ 13 :: 10 :: rest).drop (content.length + 2) = rest := by
          rw [show content ++ 13 :: 10 :: rest = (content ++ [13, 10]) ++ rest from by simp,
            show content.length + 2 = (content ++ [13, 10]).length from by simp]
          exact List.drop_left _ _
        simp only [getDecimal_encode, Bool.false_eq_true, if_false, if_neg hlen,
          htake, hdrop]
      · cases hd
  | .simple s =>
    rw [writeValue] at hw
    cases hw
    simp only [goodElem, Bool.and_eq_true, Bool.not_eq_eq_eq_not, Bool.not_true] at hgood
    obtain ⟨hcr, hutf⟩ := hgood
    rw [show (43 :: (s ++ [13, 10])) ++ rest = 43 :: (s ++ 13 :: 10 :: rest) from by simp]
    rw [parse_cons]
    rw [if_neg (by omega), if_neg (by omega), if_pos rfl]
    simp only [getLine_encode _ _ hcr, hutf, if_true]
  | .bulk none => simp [goodElem] at hgood
  | .error s => simp [goodElem] at hgood
  | .integer i => simp [goodElem] at hgood
  | .null => simp [goodElem] at hgood
  | .array vs => simp [goodElem] at hgood
  | .file b => simp [goodElem] at hgood

theorem writeValues_parse : ∀ (vs : List Frame) (body rest : List Nat),
    (∀ v ∈ vs, goodElem v = true) → writeValues vs = some body →
    parseN vs.length (body ++ rest) = .ok (vs, rest) := by
  intro vs
  induction vs with
  | nil =>
    intro body rest _ hw
    rw [writeValues] at hw
    cases hw
    rw [List.nil_append, List.length_nil, parseN_zero]
  | cons v vs ih =>
    intro body rest hgood hw
    rw [writeValues] at hw
    cases hv : writeValue v with
    | none => rw [hv] at hw; cases hw
    | some b =>
      rw [hv] at hw
      cases hvs : writeValues vs with
      | none => rw [hvs] at hw; cases hw
      | some bs =>
        rw [hvs] at hw
        simp only [Option.bind, Option.map, Option.some.injEq] at hw
        subst hw
        rw [List.length_cons, parseN_succ]
        rw [show (b ++ bs) ++ rest = b ++ (bs ++ rest) from by simp]
        have h1 : parse (b ++ (bs ++ rest)) false = .ok (v, bs ++ rest) :=
          writeValue_parse v b (bs ++ rest)
            (hgood v (List.mem_cons_self v vs)) hv
        have h2 : parseN vs.length (bs ++ rest) = .ok (vs, rest) :=
          ih bs rest (fun c hc => hgood c (List.mem_cons_of_mem v hc)) hvs
        simp only [h1, h2]

theorem write_frame_array_parse (vs : List Frame) (bs : List Nat)
    (hgood : ∀ v ∈ vs, goodElem v = true)
    (hw : write_frame (.array vs) = some bs) :
    parse bs false = .ok (.array vs, []) := by
  rw [write_frame] at hw
  cases hd : writeDecimal vs.length with
  | none => rw [hd] at hw; cases hw
  | some d =>
    rw [hd] at hw
    cases hb : writeValues vs with
    | none => rw [hb] at hw; cases hw
    | some body =>
      rw [hb] at hw
      simp only [Option.bind, Option.map, Option.some.injEq] at hw
      subst hw
      rw [writeDecimal] at hd
      split at hd
      · cases hd
        rw [show 42 :: (natToBytes vs.length ++ [13, 10] ++ body) =
          42 :: (natToBytes vs.length ++ 13 :: 10 :: body) from by simp]
        rw [parse_cons]
        rw [if_neg (by omega), if_pos rfl]
        have hp : parseN vs.length body = .ok (vs, []) := by
          have := writeValues_parse vs body [] hgood hb
          simpa using this
        simp only [getDecimal_encode, hp]
      · cases hd


theorem getLine_error_incomplete : ∀ {input : List Nat} {e : FrameError},
    getLine input = .error e → e = .incomplete := by
  intro input
  induction input with
  | nil => intro e h; rw [getLine] at h; cases h; rfl
  | cons b1 tail ih =>
    intro e h
    match tail with
    | [] => rw [getLine] at h; cases h; rfl
    | b2 :: rest2 =>
      rw [getLine] at h
      split at h
      · cases h
      · cases h3 : getLine (b2 :: rest2) with
        | error e2 =>
          rw [h3] at h
          simp only [Except.map] at h
          cases h
          exact ih h3
        | ok p =>
          rw [h3] at h
          simp only [Except.map] at h
          cases h

theorem getLine_noCRLF : ∀ {input : List Nat} {q : List Nat × List Nat},
    getLine input = .ok q → hasCRLF q.1 = false := by
  intro input
  induction input with
  | nil => intro q h; rw [getLine] at h; cases h
  | cons b1 tail ih =>
    intro q h
    match tail with
    | [] => rw [getLine] at h; cases h
    | b2 :: rest2 =>
      rw [getLine] at h
      split at h
      · cases h; rfl
      · next hb =>
        cases h3 : getLine (b2 :: rest2) with
        | error e2 => rw [h3] at h; simp only [Except.map] at h; cases h
        | ok p =>
          rw [h3] at h
          simp only [Except.map] at h
          cases h
          have hp := ih h3
          have hsplit := @getLine_split (b2 :: rest2) p.1 p.2 (by rw [h3])
          show hasCRLF (b1 :: p.1) = false
          match hp1 : p.1 with
          | [] => rfl
          | c :: cs =>
            rw [hasCRLF]
            rw [hp1] at hp
            rw [hp]
            have hc : b2 = c := by
              rw [hp1] at hsplit
              simp only [List.cons_append] at hsplit
              injection hsplit with h1 h2
            have : ¬(b1 = 13 ∧ c = 10) := by
              intro ⟨h13, h10⟩
              exact hb ⟨h13, by omega⟩
            simp only [Bool.or_false]
            simp only [decide_eq_true_eq] at *
            by_cases hb1 : b1 = 13
            · have : ¬ c = 10 := fun hcc => this ⟨hb1, hcc⟩
              simp [this]
            · simp [hb1]

theorem getLine_extend {input S : List Nat} {q : List Nat × List Nat}
    (h : getLine input = .ok q) :
    getLine (input ++ S) = .ok (q.1, q.2 ++ S) := by
  have hsplit := @getLine_split input q.1 q.2 (by rw [h])
  have hcr := getLine_noCRLF h
  rw [hsplit]
  rw [show (q.1 ++ 13 :: 10 :: q.2) ++ S = q.1 ++ 13 :: 10 :: (q.2 ++ S) from by simp]
  exact getLine_encode _ _ hcr

theorem getDecimal_extend_ok {input S : List Nat} {p : Nat × List Nat}
    (h : getDecimal input = .ok p) :
    getDecimal (input ++ S) = .ok (p.1, p.2 ++ S) := by
  rw [getDecimal] at h
  split at h
  · cases h
  · next q hline =>
    split at h
    · cases h
    · next n hdec =>
      cases h
      rw [getDecimal, getLine_extend hline]
      show (match decimalLoop q.1 0 with
        | Except.error e => Except.error e
        | Except.ok m => Except.ok (m, q.2 ++ S)) = _
      rw [hdec]

theorem getDecimal_extend_other {input S : List Nat} {m : String}
    (h : getDecimal input = .error (.other m)) :
    getDecimal (input ++ S) = .error (.other m) := by
  rw [getDecimal] at h
  split at h
  · next e hline =>
    cases h
    have := getLine_error_incomplete hline
    cases this
  · next q hline =>
    split at h
    · next e hdec =>
      cases h
      rw [getDecimal, getLine_extend hline]
      show (match decimalLoop q.1 0 with
        | Except.error e => Except.error e
        | Except.ok m2 => Except.ok (m2, q.2 ++ S)) = _
      rw [hdec]
    · cases h

theorem skip_extend {n : Nat} {input S r : List Nat}
    (h : skip n input = .ok r) : skip n (input ++ S) = .ok (r ++ S) := by
  rw [skip] at h
  split at h
  · cases h
  · next hge =>
    cases h
    rw [skip]
    rw [if_neg (by simp only [List.length_append]; omega)]
    rw [List.drop_append_of_le_length (by omega)]

theorem skip_error_incomplete {n : Nat} {input : List Nat} {e : FrameError}
    (h : skip n input = .error e) : e = .incomplete := by
  rw [skip] at h
  split at h
  · cases h; rfl
  · cases h

theorem checkBulk_extend_ok {rest S r : List Nat} {ef : Bool}
    (h : checkBulk rest ef = .ok r) :
    checkBulk (rest ++ S) ef = .ok (r ++ S) := by
  rw [checkBulk] at h
  split at h
  · cases h
  · next len rest1 hdec =>
    rw [checkBulk]
    rw [show getDecimal (rest ++ S) = .ok (len, rest1 ++ S) from
      getDecimal_extend_ok (p := (len, rest1)) hdec]
    split at h <;> (next hef =>
      simp only [hef]
      exact skip_extend h)

theorem checkBulk_extend_other {rest S : List Nat} {ef : Bool} {m : String}
    (h : checkBulk rest ef = .error (.other m)) :
    checkBulk (rest ++ S) ef = .error (.other m) := by
  rw [checkBulk] at h
  split at h
  · next e hdec =>
    cases h
    rw [checkBulk]
    cases e2 : getDecimal rest with
    | error e3 =>
      cases e2 ▸ hdec
      rw [getDecimal_extend_other e2]
    | ok p => rw [e2] at hdec; cases hdec
  · next len rest1 hdec =>
    split at h <;> (have hsk := skip_error_incomplete h; cases hsk)

theorem check_extend_aux : ∀ (N : Nat) (input : List Nat),
    input.length ≤ N → ∀ (ef : Bool) (S : List Nat),
    (∀ r, check input ef = .ok r → check (input ++ S) ef = .ok (r ++ S)) ∧
    (∀ m, check input ef = .error (.other m) →
      check (input ++ S) ef = .error (.other m)) ∧
    (∀ len r, checkN len input ef = .ok r →
      checkN len (input ++ S) ef = .ok (r ++ S)) ∧
    (∀ len m, checkN len input ef = .error (.other m) →
      checkN len (input ++ S) ef = .error (.other m)) := by
  intro N
  induction N using Nat.strong_induction_on with
  | _ N ih =>
    intro input hlen ef S
    have frame_ok : ∀ r, check input ef = .ok r →
        check (input ++ S) ef = .ok (r ++ S) := by
      intro r h
      cases input with
      | nil => rw [check_nil] at h; cases h
      | cons b rest =>
        simp only [List.length_cons] at hlen
        rw [check_cons] at h
        rw [List.cons_append, check_cons]
        by_cases h36 : b = 36
        · rw [if_pos h36] at h ⊢
          exact checkBulk_extend_ok h
        · rw [if_neg h36] at h ⊢
          by_cases h42 : b = 42
          · rw [if_pos h42] at h ⊢
            cases hd : getDecimal rest with
            | error e => rw [hd] at h; cases h
            | ok p =>
              rw [hd] at h
              rw [show getDecimal (rest ++ S) = .ok (p.1, p.2 ++ S) from
                getDecimal_extend_ok hd]
              have hdl := getDecimal_length hd
              exact (ih p.2.length (by omega) p.2 (Nat.le_refl _) ef S).2.2.1
                p.1 r h
          · rw [if_neg h42] at h ⊢
            cases hl : getLine rest with
            | error e => rw [hl] at h; cases h
            | ok q =>
              rw [hl] at h
              cases h
              rw [getLine_extend hl]
    have frame_other : ∀ m, check input ef = .error (.other m) →
        check (input ++ S) ef = .error (.other m) := by
      intro m h
      cases input with
      | nil => rw [check_nil] at h; cases h
      | cons b rest =>
        simp only [List.length_cons] at hlen
        rw [check_cons] at h
        rw [List.cons_append, check_cons]
        by_cases h36 : b = 36
        · rw [if_pos h36] at h ⊢
          exact checkBulk_extend_other h
        · rw [if_neg h36] at h ⊢
          by_cases h42 : b = 42
          · rw [if_pos h42] at h ⊢
            cases hd : getDecimal rest with
            | error e =>
              rw [hd] at h
              cases h
              rw [getDecimal_extend_other hd]
            | ok p =>
              rw [hd] at h
              rw [show getDecimal (rest ++ S) = .ok (p.1, p.2 ++ S) from
                getDecimal_extend_ok hd]
              have hdl := getDecimal_length hd
              exact (ih p.2.length (by omega) p.2 (Nat.le_refl _) ef S).2.2.2
                p.1 m h
          · rw [if_neg h42] at h ⊢
            cases hl : getLine rest with
            | error e =>
              rw [hl] at h
              cases h
              have := getLine_error_incomplete hl
              cases this
            | ok q => rw [hl] at h; cases h
    refine ⟨frame_ok, frame_other, ?_, ?_⟩
    · intro len
      induction len with
      | zero =>
        intro r h
        rw [checkN_zero] at h
        cases h
        rw [checkN_zero]
      | succ len ihl =>
        intro r h
        rw [checkN_succ] at h
        rw [checkN_succ]
        cases hc : check input ef with
        | error e => rw [hc] at h; cases h
        | ok r1 =>
          rw [hc] at h
          rw [frame_ok r1 hc]
          have hr1 : r1.length < input.length := check_length hc
          exact (ih r1.length (by omega) r1 (Nat.le_refl _) ef S).2.2.1 len r h
    · intro len
      induction len with
      | zero =>
        intro m h
        rw [checkN_zero] at h
        cases h
      | succ len ihl =>
        intro m h
        rw [checkN_succ] at h
        rw [checkN_succ]
        cases hc : check input ef with
        | error e =>
          rw [hc] at h
          cases h
          rw [frame_other m hc]
        | ok r1 =>
          rw [hc] at h
          rw [frame_ok r1 hc]
          have hr1 : r1.length < input.length := check_length hc
          exact (ih r1.length (by omega) r1 (Nat.le_refl _) ef S).2.2.2 len m h

theorem check_extend_ok {input S r : List Nat} {ef : Bool}
    (h : check input ef = .ok r) : check (input ++ S) ef = .ok (r ++ S) :=
  (check_extend_aux input.length input (Nat.le_refl _) ef S).1 r h

theorem check_extend_other {input S : List Nat} {ef : Bool} {m : String}
    (h : check input ef = .error (.other m)) :
    check (input ++ S) ef = .error (.other m) :=
  (check_extend_aux input.length input (Nat.le_refl _) ef S).2.1 m h

/-- On a strict prefix of a fully-checkable buffer, `check` reports
`Incomplete`. -/
theorem check_prefix_incomplete {P S : List Nat} {ef : Bool}
    (hck : check (P ++ S) ef = .ok []) (hS : S ≠ []) :
    check P ef = .error .incomplete := by
  cases hc : check P ef with
  | ok r =>
    have := check_extend_ok (S := S) hc
    rw [hck] at this
    have : r ++ S = [] := by
      injection this with h2
      exact h2.symm
    have : S = [] := by
      cases List.append_eq_nil.mp this with
      | intro h1 h2 => exact h2
    exact absurd this hS
  | error e =>
    cases e with
    | incomplete => rfl
    | other m =>
      have := check_extend_other (S := S) hc
      rw [hck] at this
      cases this


/-- Model of `replication.rs` `EMPTY_RDB_FILE_BYTES`: the fixed snapshot payload. -/
def EMPTY_RDB_FILE_BYTES : List Nat := [
  0x52, 0x45, 0x44, 0x49, 0x53, 0x30, 0x30, 0x31, 0x31, 0xfa, 0x09, 0x72,
  0x65, 0x64, 0x69, 0x73, 0x2d, 0x76, 0x65, 0x72, 0x05, 0x37, 0x2e, 0x32,
  0x2e, 0x30, 0xfa, 0x0a, 0x72, 0x65, 0x64, 0x69, 0x73, 0x2d, 0x62, 0x69,
  0x74, 0x73, 0xc0, 0x40, 0xfa, 0x05, 0x63, 0x74, 0x69, 0x6d, 0x65, 0xc2,
  0x6d, 0x08, 0xbc, 0x65, 0xfa, 0x08, 0x75, 0x73, 0x65, 0x64, 0x2d, 0x6d,
  0x65, 0x6d, 0xc2, 0xb0, 0xc4, 0x10, 0x00, 0xfa, 0x08, 0x61, 0x6f, 0x66,
  0x2d, 0x62, 0x61, 0x73, 0x65, 0xc0, 0x00, 0xff, 0xf0, 0x6e, 0x3b, 0xfe,
  0xc0, 0xff, 0x5a, 0xa2]

/-- Model of `replication.rs` `ReplicationInfo` (the variant used by the running
server; the one in `db.rs` is a stale duplicate without the replica list).
`master_replication_id` and `listening_port` are byte lists (the bytes of
the Rust `String`s); `role` stays a `String` because it is only compared
with the literals "master"/"slave".  The field name `reaplicaof_addr`
preserves the source's spelling. -/
structure ReplicationInfo where
  role : String
  connected_slaves : Nat
  master_repl_offset : Nat
  master_replication_id : List Nat
  second_repl_offset : Int
  repl_backlog_active : Bool
  repl_backlog_size : Nat
  repl_backlog_first_byte_offset : Nat
  repl_backlog_histlen : Nat
  reaplicaof_addr : Option String
  listening_port : List Nat
  replicas : List String

/-- Model of `ReplicationInfo::new`: role from the `replicaof` flag, fixed
replication id, empty replica list. -/
def ReplicationInfo.new (replicaof : Option String) (listening_port : List Nat) :
    ReplicationInfo where
  role := match replicaof with
    | some _ => "slave"
    | none => "master"
  connected_slaves := 0
  master_repl_offset := 0
  master_replication_id := strLit "8371b4fb1155b71f4a04d3e1bc3e18c4a990aeeb"
  second_repl_offset := 0
  repl_backlog_active := false
  repl_backlog_size := 0
  repl_backlog_first_byte_offset := 0
  repl_backlog_histlen := 0
  reaplicaof_addr := replicaof
  listening_port := listening_port
  replicas := []

def ReplicationInfo.get_replication_id (ri : ReplicationInfo) : List Nat :=
  ri.master_replication_id

def ReplicationInfo.get_replication_offset (ri : ReplicationInfo) : Nat :=
  ri.master_repl_offset

/-- Model of `ReplicationInfo::add_replica`: `assert!(role == "master")` — the
panic on a non-master is modelled as `none` — then append the address and
increment `connected_slaves`. -/
def ReplicationInfo.add_replica (ri : ReplicationInfo) (addr : String) :
    Option ReplicationInfo :=
  if ri.role = "master" then
    some { ri with replicas := ri.replicas ++ [addr],
                   connected_slaves := ri.connected_slaves + 1 }
  else none

def ReplicationInfo.get_replicas (ri : ReplicationInfo) : List String :=
  ri.replicas

/-- Model of `db.rs` `RedisState`: the keyed store (`HashMap<String, (Bytes,
Option<u128>)>`, modelled as a function from key bytes to entries) plus the
replication info.  `get_replicas`/`add_replica`, called on the locked
state by `commands.rs`, delegate to the replication info. -/
structure RedisState where
  db : List Nat → Option (List Nat × Option Nat)
  replication_info : ReplicationInfo

/-- Model of `RedisState::new`. -/
def RedisState.new (replicaof : Option String) (port : List Nat) : RedisState where
  db := fun _ => none
  replication_info := ReplicationInfo.new replicaof port

/-- Model of `RedisState::insert`: replaces any prior entry. -/
def RedisState.insert (st : RedisState) (key value : List Nat)
    (expiry : Option Nat) : RedisState :=
  { st with db := fun k => if k = key then some (value, expiry) else st.db k }

/-- Model of `RedisState::get`. -/
def RedisState.get (st : RedisState) (key : List Nat) :
    Option (List Nat × Option Nat) :=
  st.db key

/-- Model of `RedisState::remove`. -/
def RedisState.remove (st : RedisState) (key : List Nat) : RedisState :=
  { st with db := fun k => if k = key then none else st.db k }

def RedisState.get_replication_info (st : RedisState) : ReplicationInfo :=
  st.replication_info

def RedisState.get_replicas (st : RedisState) : List String :=
  st.replication_info.get_replicas

def RedisState.add_replica (st : RedisState) (addr : String) :
    Option RedisState :=
  (st.replication_info.add_replica addr).map
    (fun ri => { st with replication_info := ri })

/-- One observable network write performed through the connection manager
(`ConnectionManager::write_frame(addr, frame)`); recorded even when the
write fails. -/
inductive Event where
  | write (addr : String) (f : Frame)

/-- Model of `commands.rs` `struct Set` (key and value as the bytes of the Rust
`String`/`Bytes`). -/
structure Set where
  key : List Nat
  val : List Nat
  expiry_duration_millis : Option Nat

/-- The replication frame built in `Set::replicate`:
`*3 SET <key> <value>` with no expiry fields. -/
def Set.repl_frame (cmd : Set) : Frame :=
  .array [.bulk (some (strLit "SET")), .bulk (some cmd.key),
    .bulk (some cmd.val)]

/-- Model of `commands.rs` `Set::replicate`: write the replication frame to each
replica in order; `?` aborts at the first failed write.  `wok` tells which
connection-manager writes succeed; the Bool is `true` when the loop
finished without error. -/
def Set.replicate (cmd : Set) (replicas : List String) (wok : String → Bool) :
    List Event × Bool :=
  match replicas with
  | [] => ([], true)
  | r :: rs =>
    if wok r then
      let p := Set.replicate cmd rs wok
      (.write r cmd.repl_frame :: p.1, p.2)
    else ([.write r cmd.repl_frame], false)

/-- Model of `commands.rs` `Set::apply`: under the state lock, insert (absolute
deadline `now + duration` when an expiry is present), then replicate to
every registered replica (awaited, with `?`), and only after that write
`+OK` to the originating client.  `now` is `get_unix_ts_millis()`.  The
event list holds the attempted writes in order; the Bool is `true` when
`apply` returned `Ok`. -/
def Set.apply (cmd : Set) (dst_addr : String) (db : RedisState) (now : Nat)
    (wok : String → Bool) : RedisState × List Event × Bool :=
  let db1 := match cmd.expiry_duration_millis with
    | some duration => db.insert cmd.key cmd.val (some (now + duration))
    | none => db.insert cmd.key cmd.val none
  let repl := Set.replicate cmd db1.get_replicas wok
  if repl.2 then
    (db1, repl.1 ++ [.write dst_addr (.simple (strLit "OK"))], wok dst_addr)
  else (db1, repl.1, false)

/-- Model of `commands.rs` `Set::apply_replica`: insert only, no reply. -/
def Set.apply_replica (cmd : Set) (db : RedisState) (now : Nat) : RedisState :=
  match cmd.expiry_duration_millis with
  | some duration => db.insert cmd.key cmd.val (some (now + duration))
  | none => db.insert cmd.key cmd.val none

/-- Model of `commands.rs` `struct Get`. -/
structure Get where
  key : List Nat

/-- Model of `commands.rs` `Get::apply`: a live entry (no expiry, or expiry strictly
greater than now) replies with its value; an expired entry is removed and
the null bulk is written; an absent key replies the null bulk. -/
def Get.apply (cmd : Get) (dst_addr : String) (db : RedisState) (now : Nat)
    (wok : String → Bool) : RedisState × List Event × Bool :=
  match db.get cmd.key with
  | some (val, expiry) =>
    let valid := match expiry with
      | some ts => decide (now < ts)
      | none => true
    if valid then (db, [.write dst_addr (.bulk (some val))], wok dst_addr)
    else
      (db.remove cmd.key, [.write dst_addr (.bulk none)], wok dst_addr)
  | none => (db, [.write dst_addr (.bulk none)], wok dst_addr)

/-- Model of `commands.rs` `enum ReplConfOption`. -/
inductive ReplConfOption where
  | listeningPort (port : List Nat)
  | capabilities (caps : List (List Nat))
  | getAck (arg : List Nat)

/-- Model of `commands.rs` `struct ReplConf`. -/
structure ReplConf where
  option : ReplConfOption

/-- Model of `commands.rs` `ReplConf::apply`: replies `+OK` regardless of the
option. -/
def ReplConf.apply (cmd : ReplConf) (dst_addr : String)
    (wok : String → Bool) : List Event × Bool :=
  ([.write dst_addr (.simple (strLit "OK"))], wok dst_addr)

/-- Model of `commands.rs` `ReplConf::apply_replica`: on `getack`, write
`*3 REPLCONF ACK 0` to the connection (the frames written are returned);
any other option is an error.  No caller in the program invokes this
method. -/
def ReplConf.apply_replica (cmd : ReplConf) : Except String (List Frame) :=
  match cmd.option with
  | .getAck _ => .ok [.array [.bulk (some (strLit "REPLCONF")),
      .bulk (some (strLit "ACK")), .bulk (some (strLit "0"))]]
  | _ => .error "ERR: Invalid REPLCONF option passed to replica."

/-- Model of `commands.rs` `struct Psync`. -/
structure Psync where
  replication_id : List Nat
  _replication_offset : Int

/-- Model of `commands.rs` `Psync::apply`: when the peer's replication id differs
from ours, write the `FULLRESYNC <id> <offset>` simple line, then the
snapshot as a File frame, then register the peer as a replica
(`add_replica` asserts the master role; its panic is modelled as `none`).
When the ids match, nothing happens (partial sync is not implemented). -/
def Psync.apply (cmd : Psync) (dst_addr : String) (db : RedisState)
    (wok : String → Bool) : Option (RedisState × List Event × Bool) :=
  let repl_info := db.get_replication_info
  if repl_info.get_replication_id ≠ cmd.replication_id then
    let e1 := Event.write dst_addr (.simple (strLit "FULLRESYNC " ++
      repl_info.get_replication_id ++ strLit " " ++
      natToBytes repl_info.get_replication_offset))
    let e2 := Event.write dst_addr (.file EMPTY_RDB_FILE_BYTES)
    if wok dst_addr then
      if wok dst_addr then
        match db.add_replica dst_addr with
        | some db2 => some (db2, [e1, e2], true)
        | none => none
      else some (db, [e1, e2], false)
    else some (db, [e1], false)
  else some (db, [], true)

/-- Model of `commands.rs` `enum Command`. -/
inductive Command where
  | ping
  | commandList
  | echo (arg : List Nat)
  | unknown
  | set (cmd : Set)
  | get (cmd : Get)
  | info (sec : Option (List Nat))
  | replconf (cmd : ReplConf)
  | psync (cmd : Psync)

/-- Result of `Command::from_frame`: a command, an `Err` return, or a Rust
panic (`&array[0]` on an empty array; `.unwrap()` on a failed duration
parse). -/
inductive FromFrameResult where
  | ok (c : Command)
  | err (msg : String)
  | panicked (msg : String)

/-- ASCII lowercasing, the effect of Rust `str::to_lowercase` on the byte
level.  (The Rust function also maps some multi-byte uppercase code points;
none of those can produce one of the ASCII command names compared against,
so command dispatch is unaffected.) -/
def toLowerBytes (l : List Nat) : List Nat :=
  l.map (fun b => if 65 ≤ b ∧ b ≤ 90 then b + 32 else b)

/-- ASCII uppercasing (`str::to_uppercase`), same remark as
`toLowerBytes`. -/
def toUpperBytes (l : List Nat) : List Nat :=
  l.map (fun b => if 97 ≤ b ∧ b ≤ 122 then b - 32 else b)

/-- Digit run of Rust integer parsing: `none` on any non-digit. -/
def parseDigitsAux : List Nat → Nat → Option Nat
  | [], acc => some acc
  | b :: bs, acc =>
    if 48 ≤ b ∧ b ≤ 57 then parseDigitsAux bs (acc * 10 + (b - 48))
    else none

/-- Rust `str::parse::<u128>`: optional leading `+`, one or more digits,
value below 2^128. -/
def parseU128 (s : List Nat) : Option Nat :=
  let digits := match s with
    | 43 :: rest => rest
    | _ => s
  match digits with
  | [] => none
  | _ =>
    (parseDigitsAux digits 0).bind
      (fun n => if n < 2 ^ 128 then some n else none)

/-- Rust `str::parse::<i64>`: optional sign, one or more digits, value in
the i64 range. -/
def parseI64 (s : List Nat) : Option Int :=
  let p : Bool × List Nat := match s with
    | 45 :: rest => (true, rest)
    | 43 :: rest => (false, rest)
    | _ => (false, s)
  match p.2 with
  | [] => none
  | _ =>
    (parseDigitsAux p.2 0).bind (fun n =>
      if p.1 then (if n ≤ 2 ^ 63 then some (-(n : Int)) else none)
      else (if n < 2 ^ 63 then some (n : Int) else none))

/-- The `capa` collection loop of `Command::from_frame` over
`array[2..]`: every element must be a bulk with valid UTF-8 payload. -/
def capLoop : List Frame → Option (List (List Nat))
  | [] => some []
  | .bulk (some bytes) :: rest =>
    if isValidUtf8 bytes then (capLoop rest).map (bytes :: ·) else none
  | _ :: _ => none

/-- The expiry-clause parsing of `Command::from_frame` for a five-element
SET: unit frame (bulk or simple) checked against EX/PX (uppercased), then
the duration parsed with `.unwrap()` — a non-numeric duration is a panic,
not an error. -/
def parseExpiry (unitFrame durFrame : Frame) : FromFrameResult ⊕ Nat :=
  let command : Option (List Nat) := match unitFrame with
    | .bulk (some bytes) => if isValidUtf8 bytes then some bytes else none
    | .simple val => some val
    | _ => none
  match command with
  | none => .inl (.err "ERR: Wrong expiry command frame")
  | some command =>
    let mult : Option Nat :=
      if toUpperBytes command = strLit "EX" then some 1000
      else if toUpperBytes command = strLit "PX" then some 1
      else none
    match mult with
    | none => .inl (.err "ERR: Wrong expiry command")
    | some multiplier =>
      let duration : Option (List Nat) := match durFrame with
        | .bulk (some bytes) => if isValidUtf8 bytes then some bytes else none
        | .simple val => some val
        | _ => none
      match duration with
      | none => .inl (.err "ERR: Wrong expiry duration frame")
      | some duration =>
        match parseU128 duration with
        | some d => .inr (d * multiplier)
        | none => .inl (.panicked "called unwrap on an Err value")

/-- Model of `commands.rs` `Command::from_frame`, including its two panic points:
`&array[0]` on an empty array and the `.unwrap()` on the expiry duration
parse. -/
def Command.from_frame (frame : Frame) : FromFrameResult :=
  match frame with
  | .array array =>
    match array with
    | [] => .panicked "index out of bounds"
    | first :: _ =>
      match first with
      | .bulk (some bytes) =>
        if isValidUtf8 bytes then
          let command_name := toLowerBytes bytes
          if command_name = strLit "ping" then .ok .ping
          else if command_name = strLit "command" then .ok .commandList
          else if command_name = strLit "echo" then
            match array with
            | [_, .bulk (some arg)] => .ok (.echo arg)
            | [_, _] => .err "ERR: Wrong argument for ECHO"
            | _ => .err "ERR: Wrong number of arguments for ECHO"
          else if command_name = strLit "get" then
            match array with
            | [_, .bulk (some arg)] =>
              if isValidUtf8 arg then .ok (.get ⟨arg⟩)
              else .err "protocol error; invalid frame format"
            | [_, _] => .err "ERR: Wrong argument for ECHO"
            | _ => .err "ERR: Wrong number of arguments for GET"
          else if command_name = strLit "set" then
            match array with
            | [_, keyF, valF] =>
              match keyF, valF with
              | .bulk (some key), .bulk (some val) =>
                if isValidUtf8 key then .ok (.set ⟨key, val, none⟩)
                else .err "protocol error; invalid frame format"
              | _, _ => .err "ERR: Wrong argument for ECHO"
            | [_, keyF, valF, unitF, durF] =>
              match keyF, valF with
              | .bulk (some key), .bulk (some val) =>
                (match parseExpiry unitF durF with
                 | .inl r => r
                 | .inr millis =>
                   if isValidUtf8 key then
                     .ok (.set ⟨key, val, some millis⟩)
                   else .err "protocol error; invalid frame format")
              | _, _ => .err "ERR: Wrong argument for ECHO"
            | _ => .err "ERR: Wrong number of arguments for SET"
          else if command_name = strLit "info" then
            match array with
            | [_, .bulk (some arg)] =>
              if isValidUtf8 arg then .ok (.info (some arg))
              else .err "protocol error; invalid frame format"
            | [_, _] => .err "ERR: Wrong argument for ECHO"
            | _ => .err "ERR: Wrong number of arguments for INFO"
          else if command_name = strLit "replconf" then
            match array with
            | _ :: optF :: third :: rest =>
              match optF with
              | .bulk (some optBytes) =>
                if isValidUtf8 optBytes then
                  if optBytes = strLit "listening-port" then
                    match third with
                    | .bulk (some port) =>
                      if isValidUtf8 port then
                        .ok (.replconf ⟨.listeningPort port⟩)
                      else .err "protocol error; invalid frame format"
                    | _ => .err "ERR: Wrong argument for REPLCONF"
                  else if optBytes = strLit "capa" then
                    match capLoop (third :: rest) with
                    | some caps => .ok (.replconf ⟨.capabilities caps⟩)
                    | none => .err "ERR: Wrong argument for REPLCONF"
                  else if optBytes = strLit "getack" then
                    match third with
                    | .bulk (some arg) =>
                      if isValidUtf8 arg then
                        .ok (.replconf ⟨.getAck arg⟩)
                      else .err "protocol error; invalid frame format"
                    | _ => .err "ERR: Wrong argument for REPLCONF"
                  else .err "ERR: Wrong argument for REPLCONF"
                else .err "protocol error; invalid frame format"
              | _ => .err "ERR: Wrong argument for REPLCONF"
            | _ => .err "ERR: Wrong number of arguments for REPLCONF"
          else if command_name = strLit "psync" then
            match array with
            | [_, idF, offF] =>
              match idF with
              | .bulk (some idBytes) =>
                if isValidUtf8 idBytes then
                  match offF with
                  | .bulk (some offBytes) =>
                    if isValidUtf8 offBytes then
                      match parseI64 offBytes with
                      | some off => .ok (.psync ⟨idBytes, off⟩)
                      | none => .err "invalid digit found in string"
                    else .err "protocol error; invalid frame format"
                  | _ => .err "ERR: Wrong argument for PSYNC"
                else .err "protocol error; invalid frame format"
              | _ => .err "ERR: Wrong argument for PSYNC"
            | _ => .err "ERR: Wrong number of arguments for PSYNC"
          else .ok .unknown
        else .err "protocol error; invalid frame format"
      | _ => .err "Need a RESP array as command"
  | _ => .err "Need a RESP array as command"

/-- One iteration of `ReplicationWorker::start`'s apply loop on a decoded
frame: only a frame that parses to a SET command mutates the local store;
every other outcome is logged and skipped; no branch writes a reply
(second component: frames written during the step).  A `from_frame` panic
propagates (`none`). -/
def replicaStep (frame : Frame) (db : RedisState) (now : Nat) :
    Option (RedisState × List Frame) :=
  match Command.from_frame frame with
  | .ok (.set cmd) => some (cmd.apply_replica db now, [])
  | .panicked _ => none
  | _ => some (db, [])


/-- An event on the replica's upstream connection during the handshake:
a frame sent, or the result of one `read_frame` (`none` models EOF). -/
inductive HEvent where
  | send (f : Frame)
  | recv (r : Option Frame)

/-- Outcome of `ReplicationWorker::handshake`: normal return, `Err` return,
or `assert!` panic. -/
inductive HsOutcome where
  | ok
  | err (msg : String)
  | panicked (msg : String)

/-- The `*1 PING` frame sent first by the handshake. -/
def pingFrame : Frame := .array [.bulk (some (strLit "PING"))]

/-- The `*3 REPLCONF listening-port <port>` frame. -/
def replconfPortFrame (port : List Nat) : Frame :=
  .array [.bulk (some (strLit "REPLCONF")),
    .bulk (some (strLit "listening-port")), .bulk (some port)]

/-- The `*3 REPLCONF capa psync2` frame. -/
def replconfCapaFrame : Frame :=
  .array [.bulk (some (strLit "REPLCONF")), .bulk (some (strLit "capa")),
    .bulk (some (strLit "psync2"))]

/-- The `*3 PSYNC ? -1` frame. -/
def psyncFrame : Frame :=
  .array [.bulk (some (strLit "PSYNC")), .bulk (some (strLit "?")),
    .bulk (some (strLit "-1"))]

/-- Handling of one handshake response that the source asserts equal
(case-insensitively) to `expected`: EOF (`none`) is skipped without any
validation (`if let Some`), a Simple frame is asserted equal (panic on
mismatch), and any other frame is an error return.  `none` result means
the handshake proceeds. -/
def expectSimpleAssert (r : Option Frame) (expected : List Nat) :
    Option HsOutcome :=
  match r with
  | none => none
  | some (.simple s) =>
    if toLowerBytes s = expected then none
    else some (.panicked "handshake assertion failed")
  | some _ => some (.err "Did not get expected response from master")

/-- Handling of the PSYNC response: a Simple line of any content is only
logged — the source never checks that it begins with FULLRESYNC. -/
def expectSimpleAny (r : Option Frame) : Option HsOutcome :=
  match r with
  | none => none
  | some (.simple _) => none
  | some _ => some (.err "Did not get OK response from master")

/-- Handling of the snapshot read (`read_frame(true)`): a File frame is
logged; EOF is skipped; anything else is an error. -/
def expectFileFrame (r : Option Frame) : Option HsOutcome :=
  match r with
  | none => none
  | some (.file _) => none
  | some _ => some (.err "Did not get RDB file from master")

/-- Model of `replication.rs` `ReplicationWorker::handshake`.  `responses i` is the
result of the i-th `read_frame` on the upstream connection; writes on the
upstream connection are modelled as succeeding.  The event list records
sends and reads in program order. -/
def handshake (listening_port : List Nat) (responses : Nat → Option Frame) :
    List HEvent × HsOutcome :=
  let ev1 := [HEvent.send pingFrame, HEvent.recv (responses 0)]
  match expectSimpleAssert (responses 0) (strLit "pong") with
  | some out => (ev1, out)
  | none =>
    let ev2 := ev1 ++ [HEvent.send (replconfPortFrame listening_port),
      HEvent.recv (responses 1)]
    match expectSimpleAssert (responses 1) (strLit "ok") with
    | some out => (ev2, out)
    | none =>
      let ev3 := ev2 ++ [HEvent.send replconfCapaFrame,
        HEvent.recv (responses 2)]
      match expectSimpleAssert (responses 2) (strLit "ok") with
      | some out => (ev3, out)
      | none =>
        let ev4 := ev3 ++ [HEvent.send psyncFrame,
          HEvent.recv (responses 3)]
        match expectSimpleAny (responses 3) with
        | some out => (ev4, out)
        | none =>
          let ev5 := ev4 ++ [HEvent.recv (responses 4)]
          match expectFileFrame (responses 4) with
          | some out => (ev5, out)
          | none => (ev5, .ok)

/-- The full interleaved send/read pattern of a handshake that runs to
completion. -/
def handshakePattern (listening_port : List Nat)
    (responses : Nat → Option Frame) : List HEvent :=
  [.send pingFrame, .recv (responses 0),
   .send (replconfPortFrame listening_port), .recv (responses 1),
   .send replconfCapaFrame, .recv (responses 2),
   .send psyncFrame, .recv (responses 3),
   .recv (responses 4)]


theorem replicate_ok_iff (cmd : Set) (replicas : List String)
    (wok : String → Bool) :
    (Set.replicate cmd replicas wok).2 = true ↔
      ∀ r ∈ replicas, wok r = true := by
  induction replicas with
  | nil => simp [Set.replicate]
  | cons r rs ih =>
    rw [Set.replicate]
    by_cases h : wok r = true
    · rw [if_pos h]
      simp only [List.mem_cons]
      constructor
      · intro h2 a ha
        cases ha with
        | inl he => rw [he]; exact h
        | inr hm => exact (ih.mp h2) a hm
      · intro h2
        exact ih.mpr (fun a ha => h2 a (Or.inr ha))
    · rw [if_neg (by simpa using h)]
      simp only [List.mem_cons]
      constructor
      · intro h2; cases h2
      · intro h2
        exact absurd (h2 r (Or.inl rfl)) h

theorem replicate_events_shape (cmd : Set) (replicas : List String)
    (wok : String → Bool) :
    ∀ e ∈ (Set.replicate cmd replicas wok).1,
      ∃ r ∈ replicas, e = .write r cmd.repl_frame := by
  induction replicas with
  | nil => intro e he; simp [Set.replicate] at he
  | cons r rs ih =>
    intro e he
    rw [Set.replicate] at he
    by_cases h : wok r = true
    · rw [if_pos h] at he
      cases he with
      | head => exact ⟨r, by simp⟩
      | tail _ hm =>
        obtain ⟨a, ha, hae⟩ := ih e hm
        exact ⟨a, List.mem_cons_of_mem r ha, hae⟩
    · rw [if_neg (by simpa using h)] at he
      cases he with
      | head => exact ⟨r, by simp⟩
      | tail _ hm => cases hm

theorem replicate_all_ok_events (cmd : Set) (replicas : List String)
    (wok : String → Bool) (h : ∀ r ∈ replicas, wok r = true) :
    (Set.replicate cmd replicas wok).1 =
      replicas.map (fun r => .write r cmd.repl_frame) := by
  induction replicas with
  | nil => simp [Set.replicate]
  | cons r rs ih =>
    rw [Set.replicate, if_pos (h r (List.mem_cons_self r rs))]
    show Event.write r cmd.repl_frame :: (Set.replicate cmd rs wok).1 = _
    rw [List.map_cons]
    rw [ih (fun a ha => h a (List.mem_cons_of_mem r ha))]

theorem replicate_mem (cmd : Set) {r : String} {replicas : List String}
    (hr : r ∈ replicas) (wok : String → Bool)
    (h : ∀ a ∈ replicas, wok a = true) :
    Event.write r cmd.repl_frame ∈ (Set.replicate cmd replicas wok).1 := by
  rw [replicate_all_ok_events cmd replicas wok h]
  exact List.mem_map_of_mem _ hr

theorem set_apply_state (cmd : Set) (dst_addr : String) (db : RedisState)
    (now : Nat) (wok : String → Bool) :
    (Set.apply cmd dst_addr db now wok).1 = Set.apply_replica cmd db now := by
  rw [Set.apply, Set.apply_replica]
  split <;> rfl

theorem insert_get_replicas (st : RedisState) (k v : List Nat)
    (e : Option Nat) : (st.insert k v e).get_replicas = st.get_replicas := rfl

theorem apply_replica_get_replicas (cmd : Set) (db : RedisState) (now : Nat) :
    (Set.apply_replica cmd db now).get_replicas = db.get_replicas := by
  rw [Set.apply_replica]
  split <;> rfl

theorem get_insert_self (st : RedisState) (k v : List Nat) (e : Option Nat) :
    (st.insert k v e).get k = some (v, e) := by
  simp [RedisState.insert, RedisState.get]

theorem get_remove_self (st : RedisState) (k : List Nat) :
    (st.remove k).get k = none := by
  simp [RedisState.remove, RedisState.get]

theorem set_apply_events (cmd : Set) (dst_addr : String) (db : RedisState)
    (now : Nat) (wok : String → Bool) :
    (Set.apply cmd dst_addr db now wok).2.1 =
      if (Set.replicate cmd db.get_replicas wok).2 then
        (Set.replicate cmd db.get_replicas wok).1 ++
          [.write dst_addr (.simple (strLit "OK"))]
      else (Set.replicate cmd db.get_replicas wok).1 := by
  rw [Set.apply]
  have hrep : ∀ db1 : RedisState, db1.get_replicas = db.get_replicas →
      Set.replicate cmd db1.get_replicas wok =
        Set.replicate cmd db.get_replicas wok := by
    intro db1 h; rw [h]
  cases hexp : cmd.expiry_duration_millis with
  | some d =>
    simp only [hexp]
    rw [hrep _ (insert_get_replicas db cmd.key cmd.val (some (now + d)))]
    split <;> simp_all
  | none =>
    simp only [hexp]
    rw [hrep _ (insert_get_replicas db cmd.key cmd.val none)]
    split <;> simp_all

/-- Claim C1 (amended): for every SET applied on the primary, the
replication frame writes to all replicas are awaited *before* the `+OK`
reply is written to the originating client — `+OK` appears in the event
trace iff every replica write succeeded (so a failure while writing to one
replica *does* prevent the client from receiving `+OK`), and when it
appears it is the last event, after every replica write. -/
theorem set_apply_ok_ordering (cmd : Set) (dst_addr : String)
    (db : RedisState) (now : Nat) (wok : String → Bool) :
    (Event.write dst_addr (.simple (strLit "OK")) ∈
        (Set.apply cmd dst_addr db now wok).2.1 ↔
      ∀ r ∈ db.get_replicas, wok r = true) ∧
    ((Set.apply cmd dst_addr db now wok).2.1.getLast? =
        some (Event.write dst_addr (.simple (strLit "OK"))) ∨
      Event.write dst_addr (.simple (strLit "OK")) ∉
        (Set.apply cmd dst_addr db now wok).2.1) := by
  rw [set_apply_events]
  have hshape := replicate_events_shape cmd db.get_replicas wok
  have hok := replicate_ok_iff cmd db.get_replicas wok
  have hnotmem : Event.write dst_addr (.simple (strLit "OK")) ∉
      (Set.replicate cmd db.get_replicas wok).1 := by
    intro hmem
    obtain ⟨r, _, he⟩ := hshape _ hmem
    rw [Set.repl_frame] at he
    simp at he
  constructor
  · constructor
    · intro hmem
      split at hmem
      · next hrep => exact hok.mp hrep
      · exact absurd hmem hnotmem
    · intro hall
      rw [if_pos (hok.mpr hall)]
      simp
  · split
    · left
      exact List.getLast?_concat _
    · right
      exact hnotmem

/-- A concrete primary whose replica list holds one address. -/
def primaryWithReplica : RedisState :=
  { RedisState.new none (strLit "6379") with
    replication_info := { ReplicationInfo.new none (strLit "6379") with
      replicas := ["127.0.0.1:5001"], connected_slaves := 1 } }

/-- Claim C1 (counterexample): on a primary with one registered replica,
(i) with all writes succeeding the `+OK` write to the client is the *last*
event, emitted only after the replica write was awaited — not before it;
and (ii) when the write to the replica fails, the event trace holds only
the attempted replica write: the client never receives `+OK`. -/
theorem set_apply_ok_not_first :
    (Set.apply ⟨strLit "k", strLit "v", none⟩ "client" primaryWithReplica 0
        (fun _ => true)).2.1 =
      [.write "127.0.0.1:5001"
        (Set.repl_frame ⟨strLit "k", strLit "v", none⟩),
       .write "client" (.simple (strLit "OK"))] ∧
    (Set.apply ⟨strLit "k", strLit "v", none⟩ "client" primaryWithReplica 0
        (fun _ => false)).2.1 =
      [.write "127.0.0.1:5001"
        (Set.repl_frame ⟨strLit "k", strLit "v", none⟩)] := by
  constructor <;> rfl

/-- Claim C1 (witness): with every connection write succeeding, the client
does observe the `+OK` reply event. -/
theorem set_apply_ok_ordering_witness :
    Event.write "client" (.simple (strLit "OK")) ∈
      (Set.apply ⟨strLit "k", strLit "v", none⟩ "client" primaryWithReplica 0
        (fun _ => true)).2.1 :=
  (set_apply_ok_ordering ⟨strLit "k", strLit "v", none⟩ "client"
    primaryWithReplica 0 (fun _ => true)).1.mpr (fun _ _ => rfl)

/-- The liveness test inside `Get::apply`: no expiry, or expiry strictly
in the future. -/
def entryValid (now : Nat) : Option Nat → Bool
  | some ts => decide (now < ts)
  | none => true

theorem get_apply_some {cmd : Get} {db : RedisState} {v : List Nat}
    {e : Option Nat} (dst : String) (now : Nat) (wok : String → Bool)
    (h : db.get cmd.key = some (v, e)) :
    Get.apply cmd dst db now wok =
      if entryValid now e = true then
        (db, [.write dst (.bulk (some v))], wok dst)
      else (db.remove cmd.key, [.write dst (.bulk none)], wok dst) := by
  rw [Get.apply]
  split
  · next val expiry heq =>
    rw [h] at heq
    simp only [Option.some.injEq, Prod.mk.injEq] at heq
    obtain ⟨h1, h2⟩ := heq
    subst h1
    subst h2
    cases e <;> rfl
  · next heq =>
    rw [h] at heq
    cases heq

theorem get_apply_none {cmd : Get} {db : RedisState} (dst : String)
    (now : Nat) (wok : String → Bool) (h : db.get cmd.key = none) :
    Get.apply cmd dst db now wok =
      (db, [.write dst (.bulk none)], wok dst) := by
  rw [Get.apply]
  split
  · next val expiry heq =>
    rw [h] at heq
    cases heq
  · rfl

/-- Claim C5: after SET k v PX d at time t0 (on this store, uninterrupted
by other writes to k), GET k at time t1 replies Bulk(v) iff t1 < t0 + d;
otherwise it replies the null bulk and removes the entry, and any
subsequent GET k observes absent. -/
theorem get_ttl_semantics (db : RedisState) (dst : String) (k v : List Nat)
    (d t0 t1 : Nat) (wok wok2 : String → Bool) :
    ((Get.apply ⟨k⟩ dst ((Set.apply ⟨k, v, some d⟩ dst db t0 wok).1) t1
        wok2).2.1 = [.write dst (.bulk (some v))] ↔ t1 < t0 + d) ∧
    (t0 + d ≤ t1 →
      (Get.apply ⟨k⟩ dst ((Set.apply ⟨k, v, some d⟩ dst db t0 wok).1) t1
          wok2).2.1 = [.write dst (.bulk none)] ∧
      ((Get.apply ⟨k⟩ dst ((Set.apply ⟨k, v, some d⟩ dst db t0 wok).1) t1
          wok2).1).get k = none ∧
      (∀ (t2 : Nat) (wok3 : String → Bool),
        (Get.apply ⟨k⟩ dst
          ((Get.apply ⟨k⟩ dst ((Set.apply ⟨k, v, some d⟩ dst db t0 wok).1) t1
            wok2).1) t2 wok3).2.1 = [.write dst (.bulk none)])) := by
  have hstate : ((Set.apply ⟨k, v, some d⟩ dst db t0 wok).1).get k =
      some (v, some (t0 + d)) := by
    rw [set_apply_state]
    rw [show Set.apply_replica ⟨k, v, some d⟩ db t0 =
      db.insert k v (some (t0 + d)) from rfl]
    exact get_insert_self db k v (some (t0 + d))
  have hvalid : ∀ wk : String → Bool,
      Get.apply ⟨k⟩ dst ((Set.apply ⟨k, v, some d⟩ dst db t0 wok).1) t1 wk =
        if t1 < t0 + d then
          ((Set.apply ⟨k, v, some d⟩ dst db t0 wok).1,
            [.write dst (.bulk (some v))], wk dst)
        else (((Set.apply ⟨k, v, some d⟩ dst db t0 wok).1).remove k,
            [.write dst (.bulk none)], wk dst) := by
    intro wk
    rw [get_apply_some dst t1 wk hstate]
    by_cases ht : t1 < t0 + d
    · rw [if_pos (by simp [entryValid, ht]), if_pos ht]
    · rw [if_neg (by simp [entryValid, ht]), if_neg ht]
  constructor
  · rw [hvalid wok2]
    by_cases ht : t1 < t0 + d
    · rw [if_pos ht]
      simp [ht]
    · rw [if_neg ht]
      constructor
      · intro h
        simp at h
      · intro h
        exact absurd h ht
  · intro hle
    rw [hvalid wok2, if_neg (by omega)]
    refine ⟨rfl, get_remove_self _ k, ?_⟩
    intro t2 wok3
    rw [get_apply_none dst t2 wok3 (get_remove_self _ k)]

/-- Claim C5 (witness): SET k v PX 5 at t0 = 0 read back at t1 = 10 is
expired — the reply is the null bulk and the key is gone. -/
theorem get_ttl_semantics_witness :
    (Get.apply ⟨strLit "k"⟩ "c"
        ((Set.apply ⟨strLit "k", strLit "v", some 5⟩ "c"
          (RedisState.new none (strLit "6379")) 0 (fun _ => true)).1) 10
        (fun _ => true)).2.1 = [.write "c" (.bulk none)] :=
  ((get_ttl_semantics (RedisState.new none (strLit "6379")) "c" (strLit "k")
    (strLit "v") 5 0 10 (fun _ => true) (fun _ => true)).2 (by omega)).1


/-- Claim C2 (amended): feeding the writer's output back through `parse`
yields the original frame for bulk strings with a payload, CRLF-free
valid-UTF-8 simple strings, arrays of such elements (parsed with
`expect_file = false`), and File frames (parsed with `expect_file = true`);
the round trip fails for Error, Integer, and the null bulk. -/
theorem frame_roundtrip :
    (∀ (f : Frame) (bs : List Nat), goodFrame f = true →
      write_frame f = some bs → parse bs false = .ok (f, [])) ∧
    (∀ (b bs : List Nat), write_frame (.file b) = some bs →
      parse bs true = .ok (.file b, [])) := by
  constructor
  · intro f bs hgood hw
    match f with
    | .array vs =>
      refine write_frame_array_parse vs bs ?_ hw
      intro v hv
      exact List.all_eq_true.mp (by exact hgood) v hv
    | .simple s =>
      have h := writeValue_parse (.simple s) bs [] hgood hw
      rwa [List.append_nil] at h
    | .bulk (some c) =>
      have h := writeValue_parse (.bulk (some c)) bs [] hgood hw
      rwa [List.append_nil] at h
    | .bulk none => simp [goodFrame, goodElem] at hgood
    | .error s => simp [goodFrame, goodElem] at hgood
    | .integer i => simp [goodFrame, goodElem] at hgood
    | .null => simp [goodFrame, goodElem] at hgood
    | .file b => simp [goodFrame, goodElem] at hgood
  · intro b bs hw
    have hw2 : writeValue (.file b) = some bs := hw
    rw [writeValue] at hw2
    cases hd : writeDecimal b.length with
    | none => rw [hd] at hw2; cases hw2
    | some d =>
      rw [hd] at hw2
      simp only [Option.map, Option.some.injEq] at hw2
      rw [writeDecimal] at hd
      split at hd
      · cases hd
        subst hw2
        rw [show (36 : Nat) :: (natToBytes b.length ++ [13, 10] ++ b) =
          36 :: (natToBytes b.length ++ 13 :: 10 :: b) from by simp]
        rw [parse_cons, if_pos rfl]
        have hnl : ¬(b.length < b.length) := by omega
        simp only [getDecimal_encode, if_pos rfl, if_neg hnl, List.take_length,
          List.drop_length, if_true]
      · cases hd

/-- Claim C2 (counterexample): the writer emits `-x\r\n` for Error("x"),
but `parse` has no `'-'` branch: those bytes re-parse through the inline
command branch as an Array of one Bulk — not the original Error frame. -/
theorem error_roundtrip_fails :
    write_frame (.error (strLit "x")) = some (strLit "-x\r\n") ∧
    parse (strLit "-x\r\n") false =
      .ok (.array [.bulk (some (strLit "-x"))], []) ∧
    Frame.array [.bulk (some (strLit "-x"))] ≠ .error (strLit "x") := by
  refine ⟨rfl, ?_, by simp⟩
  simp [parse_cons, strLit, getLine, Except.map, isValidUtf8_cons,
    isValidUtf8_nil, utf8Step, splitSpace]

/-- Claim C2 (witness): the round trip evaluated on `+OK\r\n`. -/
theorem frame_roundtrip_witness :
    parse (strLit "+OK\r\n") false = .ok (.simple (strLit "OK"), []) :=
  frame_roundtrip.1 (.simple (strLit "OK")) (strLit "+OK\r\n")
    (by simp [goodFrame, goodElem, hasCRLF, strLit, isValidUtf8_cons,
      isValidUtf8_nil, utf8Step])
    rfl

/-- Claim C3 (code_bug evaluation): the writer emits the five bytes
`$-1\r\n` for the null bulk, but `get_decimal` rejects the minus sign as a
non-digit, so both `check` and `parse` fail on those bytes with the
protocol error "Invalid decimal string" instead of yielding Bulk(absent). -/
theorem null_bulk_parse_fails :
    writeValue (.bulk none) = some (strLit "$-1\r\n") ∧
    parse (strLit "$-1\r\n") false =
      .error (.other "Invalid decimal string") ∧
    check (strLit "$-1\r\n") false =
      .error (.other "Invalid decimal string") := by
  refine ⟨rfl, ?_, ?_⟩
  · simp [parse_cons, strLit, getLine, getDecimal, decimalLoop, Except.map]
  · simp [check_cons, checkBulk, strLit, getLine, getDecimal, decimalLoop,
      Except.map]

/-- Claim C4: for a buffer E on which `check` succeeds consuming exactly E
and `parse` yields a frame consuming exactly E, every strict prefix P makes
`check` report Incomplete, so the connection-level `parse_frame` returns
no frame and leaves the buffer unchanged; on the full buffer `parse_frame`
returns the complete frame. -/
theorem check_incremental (E P S : List Nat) (ef : Bool) (f : Frame)
    (hparse : parse E ef = .ok (f, []))
    (hcheck : check E ef = .ok [])
    (hsplit : E = P ++ S) (hS : S ≠ []) :
    check P ef = .error .incomplete ∧
    parse_frame P ef = .ok (none, P) ∧
    parse_frame (P ++ S) ef = .ok (some f, []) := by
  subst hsplit
  have hp := check_prefix_incomplete hcheck hS
  refine ⟨hp, ?_, ?_⟩
  · simp only [parse_frame, hp]
  · simp only [parse_frame, hcheck, hparse]

/-- Claim C4 (witness): the inline command `A\r\n` split after its first
two bytes. -/
theorem check_incremental_witness :
    check [65, 13] false = .error .incomplete ∧
    parse_frame [65, 13] false = .ok (none, [65, 13]) ∧
    parse_frame ([65, 13] ++ [10]) false =
      .ok (some (.array [.bulk (some [65])]), []) :=
  check_incremental [65, 13, 10] [65, 13] [10] false
    (.array [.bulk (some [65])])
    (by simp [parse_cons, getLine, Except.map, isValidUtf8_cons,
      isValidUtf8_nil, utf8Step, splitSpace])
    (by simp [check_cons, getLine, Except.map])
    rfl
    (by simp)

/-- Claim C6 (code_bug evaluation): `Command::from_frame` panics on an
empty Array (`&array[0]` indexes out of bounds) and on a SET whose expiry
duration is not a decimal number (`.unwrap()` on the failed parse), while
a mere wrong argument count does return an error value as the claim
describes. -/
theorem from_frame_panics :
    Command.from_frame (.array []) = .panicked "index out of bounds" ∧
    Command.from_frame (.array [.bulk (some (strLit "SET")),
      .bulk (some (strLit "k")), .bulk (some (strLit "v")),
      .bulk (some (strLit "PX")), .bulk (some (strLit "abc"))]) =
      .panicked "called unwrap on an Err value" ∧
    Command.from_frame (.array [.bulk (some (strLit "GET"))]) =
      .err "ERR: Wrong number of arguments for GET" := by
  refine ⟨rfl, ?_, ?_⟩
  · simp [Command.from_frame, strLit, isValidUtf8_cons, isValidUtf8_nil,
      utf8Step, toLowerBytes, toUpperBytes, parseExpiry, parseU128,
      parseDigitsAux]
  · simp [Command.from_frame, strLit, isValidUtf8_cons, isValidUtf8_nil,
      utf8Step, toLowerBytes]


/-- A `REPLCONF getack *` command frame. -/
def getackFrame : Frame :=
  .array [.bulk (some (strLit "REPLCONF")), .bulk (some (strLit "getack")),
    .bulk (some (strLit "*"))]

theorem from_frame_getack :
    Command.from_frame getackFrame = .ok (.replconf ⟨.getAck (strLit "*")⟩) := by
  simp [getackFrame, Command.from_frame, strLit, isValidUtf8_cons,
    isValidUtf8_nil, utf8Step, toLowerBytes]

/-- Claim C7 (counterexample): when a REPLCONF getack command is applied
through the live apply path, the reply written is `+OK`, not the
three-element `REPLCONF ACK 0` array; and the replica worker loop, fed the
same frame, skips it without writing anything. -/
theorem replconf_getack_reply_not_ack :
    ReplConf.apply ⟨.getAck (strLit "*")⟩ "client" (fun _ => true) =
      ([.write "client" (.simple (strLit "OK"))], true) ∧
    replicaStep getackFrame (RedisState.new none (strLit "6379")) 0 =
      some (RedisState.new none (strLit "6379"), []) ∧
    Frame.simple (strLit "OK") ≠
      .array [.bulk (some (strLit "REPLCONF")), .bulk (some (strLit "ACK")),
        .bulk (some (strLit "0"))] := by
  refine ⟨rfl, ?_, by simp⟩
  rw [replicaStep, from_frame_getack]

/-- Claim C7 (amended): `ReplConf::apply_replica` does reply with the
three-element `REPLCONF ACK 0` array on a getack option (and errors on any
other option), but no caller in the program invokes it: the live
`ReplConf::apply` path replies `+OK` whatever the option, and the replica
worker loop skips REPLCONF frames, applying only SET. -/
theorem replconf_getack_paths (s : List Nat) (opt : ReplConfOption)
    (dst : String) (wok : String → Bool) (db : RedisState) (now : Nat) :
    ReplConf.apply_replica ⟨.getAck s⟩ =
      .ok [.array [.bulk (some (strLit "REPLCONF")),
        .bulk (some (strLit "ACK")), .bulk (some (strLit "0"))]] ∧
    ReplConf.apply ⟨opt⟩ dst wok =
      ([.write dst (.simple (strLit "OK"))], wok dst) ∧
    replicaStep getackFrame db now = some (db, []) := by
  refine ⟨rfl, rfl, ?_⟩
  rw [replicaStep, from_frame_getack]

/-- Claim C8: a PSYNC whose replication id differs from the server's own
(on a master) writes, in order, the `FULLRESYNC <replid> <offset>` simple
line and then the 88-byte snapshot as a File frame, and appends the peer to
the replica list incrementing `connected_slaves`; afterwards every SET
whose replica writes all succeed emits a replication frame addressed to
that peer. -/
theorem psync_full_resync (db : RedisState) (dst : String) (rid : List Nat)
    (off : Int) (wok : String → Bool)
    (hrole : db.replication_info.role = "master")
    (hdiff : db.replication_info.master_replication_id ≠ rid)
    (hw : wok dst = true) :
    ∃ db2,
      Psync.apply ⟨rid, off⟩ dst db wok = some (db2,
        [.write dst (.simple (strLit "FULLRESYNC " ++
          db.replication_info.master_replication_id ++ strLit " " ++
          natToBytes db.replication_info.master_repl_offset)),
         .write dst (.file EMPTY_RDB_FILE_BYTES)], true) ∧
      db2.get_replicas = db.get_replicas ++ [dst] ∧
      db2.replication_info.connected_slaves =
        db.replication_info.connected_slaves + 1 ∧
      EMPTY_RDB_FILE_BYTES.length = 88 ∧
      (∀ (setCmd : Set) (client : String) (now : Nat) (wok2 : String → Bool),
        (∀ a, wok2 a = true) →
        Event.write dst setCmd.repl_frame ∈
          (Set.apply setCmd client db2 now wok2).2.1) := by
  refine ⟨{ db with replication_info := { db.replication_info with
      replicas := db.replication_info.replicas ++ [dst],
      connected_slaves := db.replication_info.connected_slaves + 1 } },
    ?_, rfl, rfl, rfl, ?_⟩
  · rw [Psync.apply]
    simp only [RedisState.get_replication_info,
      ReplicationInfo.get_replication_id,
      ReplicationInfo.get_replication_offset]
    rw [if_pos hdiff]
    rw [if_pos hw, if_pos hw]
    rw [show RedisState.add_replica db dst = some { db with
      replication_info := { db.replication_info with
        replicas := db.replication_info.replicas ++ [dst],
        connected_slaves := db.replication_info.connected_slaves + 1 } } from by
      rw [RedisState.add_replica, ReplicationInfo.add_replica, if_pos hrole]
      rfl]
  · intro setCmd client now wok2 hall
    rw [set_apply_events]
    rw [if_pos ((replicate_ok_iff _ _ _).mpr (fun r _ => hall r))]
    refine List.mem_append_left _ ?_
    refine replicate_mem setCmd ?_ wok2 (fun a _ => hall a)
    show dst ∈ db.replication_info.replicas ++ [dst]
    exact List.mem_append_right _ (by simp)

/-- Claim C8 (witness): a fresh master receiving `PSYNC ? -1` from a peer. -/
theorem psync_full_resync_witness :
    ∃ db2,
      Psync.apply ⟨strLit "?", -1⟩ "peer"
          (RedisState.new none (strLit "6379")) (fun _ => true) = some (db2,
        [.write "peer" (.simple (strLit "FULLRESYNC " ++
          (RedisState.new none (strLit "6379")).replication_info.master_replication_id ++
          strLit " " ++
          natToBytes
            (RedisState.new none (strLit "6379")).replication_info.master_repl_offset)),
         .write "peer" (.file EMPTY_RDB_FILE_BYTES)], true) ∧
      db2.get_replicas =
        (RedisState.new none (strLit "6379")).get_replicas ++ ["peer"] ∧
      db2.replication_info.connected_slaves =
        (RedisState.new none (strLit "6379")).replication_info.connected_slaves
          + 1 ∧
      EMPTY_RDB_FILE_BYTES.length = 88 ∧
      (∀ (setCmd : Set) (client : String) (now : Nat) (wok2 : String → Bool),
        (∀ a, wok2 a = true) →
        Event.write "peer" setCmd.repl_frame ∈
          (Set.apply setCmd client db2 now wok2).2.1) :=
  psync_full_resync (RedisState.new none (strLit "6379")) "peer"
    (strLit "?") (-1) (fun _ => true) rfl (by simp [RedisState.new,
      ReplicationInfo.new, strLit]) rfl

theorem expectSimpleAssert_not_ok {r : Option Frame} {e : List Nat}
    {out : HsOutcome} (h : expectSimpleAssert r e = some out) :
    out ≠ HsOutcome.ok := by
  rw [expectSimpleAssert.eq_def] at h
  split at h
  · cases h
  · split at h
    · cases h
    · cases h
      intro hc
      cases hc
  · cases h
    intro hc
    cases hc

theorem expectSimpleAny_not_ok {r : Option Frame} {out : HsOutcome}
    (h : expectSimpleAny r = some out) : out ≠ HsOutcome.ok := by
  rw [expectSimpleAny.eq_def] at h
  split at h
  · cases h
  · cases h
  · cases h
    intro hc
    cases hc

theorem expectFileFrame_not_ok {r : Option Frame} {out : HsOutcome}
    (h : expectFileFrame r = some out) : out ≠ HsOutcome.ok := by
  rw [expectFileFrame.eq_def] at h
  split at h
  · cases h
  · cases h
  · cases h
    intro hc
    cases hc

/-- Claim C9 (amended): the handshake's outbound frames are exactly PING,
REPLCONF listening-port, REPLCONF capa psync2, PSYNC ? -1, each sent only
after the read of the previous response has completed — the event trace is
always a prefix of the full alternating send/read pattern, and equals the
whole pattern when the handshake returns Ok; responses that arrive as
Simple lines to the first three sends are validated by assertion (panic on
mismatch), but an EOF response is skipped without validation and the PSYNC
response is never checked to begin with FULLRESYNC. -/
theorem handshake_shape (port : List Nat) (responses : Nat → Option Frame) :
    (∃ tail, handshakePattern port responses =
      (handshake port responses).1 ++ tail) ∧
    ((handshake port responses).2 = .ok →
      (handshake port responses).1 = handshakePattern port responses) ∧
    (∀ s, responses 0 = some (.simple s) →
      toLowerBytes s ≠ strLit "pong" →
      (handshake port responses).2 =
        .panicked "handshake assertion failed") := by
  refine ⟨?_, ?_, ?_⟩
  · rw [handshake]
    cases h0 : expectSimpleAssert (responses 0) (strLit "pong") with
    | some out => exact ⟨_, rfl⟩
    | none =>
      cases h1 : expectSimpleAssert (responses 1) (strLit "ok") with
      | some out => exact ⟨_, rfl⟩
      | none =>
        cases h2 : expectSimpleAssert (responses 2) (strLit "ok") with
        | some out => exact ⟨_, rfl⟩
        | none =>
          cases h3 : expectSimpleAny (responses 3) with
          | some out => exact ⟨_, rfl⟩
          | none =>
            cases h4 : expectFileFrame (responses 4) with
            | some out => exact ⟨[], by rfl⟩
            | none => exact ⟨[], by rfl⟩
  · rw [handshake]
    cases h0 : expectSimpleAssert (responses 0) (strLit "pong") with
    | some out =>
      intro hok
      exact absurd hok (expectSimpleAssert_not_ok h0)
    | none =>
      cases h1 : expectSimpleAssert (responses 1) (strLit "ok") with
      | some out =>
        intro hok
        exact absurd hok (expectSimpleAssert_not_ok h1)
      | none =>
        cases h2 : expectSimpleAssert (responses 2) (strLit "ok") with
        | some out =>
          intro hok
          exact absurd hok (expectSimpleAssert_not_ok h2)
        | none =>
          cases h3 : expectSimpleAny (responses 3) with
          | some out =>
            intro hok
            exact absurd hok (expectSimpleAny_not_ok h3)
          | none =>
            cases h4 : expectFileFrame (responses 4) with
            | some out =>
              intro hok
              exact absurd hok (expectFileFrame_not_ok h4)
            | none =>
              intro _
              rfl
  · intro s hresp hne
    have h0 : expectSimpleAssert (responses 0) (strLit "pong") =
        some (.panicked "handshake assertion failed") := by
      rw [hresp, expectSimpleAssert.eq_def]
      simp [hne]
    rw [handshake, h0]

/-- Claim C9 (counterexample): with every upstream read returning EOF, the
handshake still sends all four frames in order and returns Ok — no
response was ever validated; and a PSYNC response Simple line that does
not begin with FULLRESYNC is accepted: the handshake also returns Ok. -/
theorem handshake_no_validation :
    handshake (strLit "6380") (fun _ => none) =
      (handshakePattern (strLit "6380") (fun _ => none), .ok) ∧
    (handshake (strLit "6380") (fun i =>
      if i = 0 then some (.simple (strLit "PONG"))
      else if i = 1 then some (.simple (strLit "OK"))
      else if i = 2 then some (.simple (strLit "OK"))
      else if i = 3 then some (.simple (strLit "NOT-A-FULLRESYNC-LINE"))
      else some (.file EMPTY_RDB_FILE_BYTES))).2 = .ok := by
  constructor <;> rfl

/-- Claim C9 (witness): a handshake that returned Ok produced exactly the
full alternating send/read pattern. -/
theorem handshake_shape_witness :
    (handshake (strLit "6380") (fun _ => none)).1 =
      handshakePattern (strLit "6380") (fun _ => none) :=
  (handshake_shape (strLit "6380") (fun _ => none)).2.1 rfl

/-- Claim C10: the frame replicated for a SET with an expiry clause is the
three-element array `SET key value` with no expiry fields; parsed back by
the replica it yields a SET command with expiry None, whose replica apply
path stores the key never-expiring, while the primary stored the absolute
deadline `now + d` for the same key. -/
theorem replicated_set_loses_expiry (k v : List Nat) (d now now2 : Nat)
    (db db2 : RedisState) (dst : String) (wok : String → Bool)
    (hk : isValidUtf8 k = true) :
    Set.repl_frame ⟨k, v, some d⟩ =
      .array [.bulk (some (strLit "SET")), .bulk (some k),
        .bulk (some v)] ∧
    Command.from_frame (Set.repl_frame ⟨k, v, some d⟩) =
      .ok (.set ⟨k, v, none⟩) ∧
    replicaStep (Set.repl_frame ⟨k, v, some d⟩) db2 now2 =
      some (db2.insert k v none, []) ∧
    (db2.insert k v none).get k = some (v, none) ∧
    ((Set.apply ⟨k, v, some d⟩ dst db now wok).1).get k =
      some (v, some (now + d)) := by
  have hff : Command.from_frame (Set.repl_frame ⟨k, v, some d⟩) =
      .ok (.set ⟨k, v, none⟩) := by
    rw [Set.repl_frame]
    simp [Command.from_frame, strLit, isValidUtf8_cons, isValidUtf8_nil,
      utf8Step, toLowerBytes, hk]
  refine ⟨rfl, hff, ?_, get_insert_self db2 k v none, ?_⟩
  · rw [replicaStep, hff]
    rfl
  · rw [set_apply_state]
    exact get_insert_self db k v (some (now + d))

/-- Claim C10 (witness): evaluated at key `k`, value `v`, PX 100. -/
theorem replicated_set_loses_expiry_witness :
    Command.from_frame (Set.repl_frame ⟨strLit "k", strLit "v", some 100⟩) =
      .ok (.set ⟨strLit "k", strLit "v", none⟩) :=
  (replicated_set_loses_expiry (strLit "k") (strLit "v") 100 0 0
    (RedisState.new none (strLit "6379")) (RedisState.new none (strLit "6379"))
    "c" (fun _ => true)
    (by simp [strLit, isValidUtf8_cons, isValidUtf8_nil, utf8Step])).2.1

end Redis
